import Mathlib

set_option linter.unusedVariables false
set_option linter.unusedSectionVars false
set_option linter.unreachableTactic false
set_option linter.unusedTactic false

/-!
# Shallow embedding of the ball-juggling arm controller

Source: `final_project/Controller.py` and `final_project/Trajectory.py`
(a 7-joint arm that intercepts a ballistic ball and redirects it to a target).

Conventions of the embedding:
* Scalars are a generic linear ordered field `K` with a floor function,
  instantiated at `ℚ` for executable witnesses and at `ℝ` for statements that
  mention `π` or genuine square roots.
* The external kinematic chain (`KinematicChain.fkin`), the library
  pseudo-inverses (`np.linalg.pinv`, `MatrixUtils.weighted_pinv`) and the
  square root used by `np.linalg.norm` are passed as function parameters;
  theorems quantify over them or instantiate them (`Real.sqrt` over `ℝ`).
* A source comparison `np.linalg.norm v < c` is embedded as
  `sqrtK (sqnorm v) < c` with the `sqrtK` parameter explicit.
* In-place mutation of numpy arrays (`p_ball += ...`) is embedded by explicit
  state passing: the final values of the mutated arrays are returned.
-/

variable {K : Type} [LinearOrderedField K] [FloorRing K]

/-- 3-vectors (numpy arrays of length 3). -/
structure Vec3 (K : Type) where
  x : K
  y : K
  z : K
deriving DecidableEq

instance : Add (Vec3 K) := ⟨fun a b => ⟨a.x + b.x, a.y + b.y, a.z + b.z⟩⟩

instance : Sub (Vec3 K) := ⟨fun a b => ⟨a.x - b.x, a.y - b.y, a.z - b.z⟩⟩

instance : Neg (Vec3 K) := ⟨fun a => ⟨-a.x, -a.y, -a.z⟩⟩

instance : SMul K (Vec3 K) := ⟨fun c a => ⟨c * a.x, c * a.y, c * a.z⟩⟩

instance : Zero (Vec3 K) := ⟨⟨0, 0, 0⟩⟩

/-- Componentwise division of a 3-vector by a scalar (`v / c` in numpy). -/
def divS (v : Vec3 K) (c : K) : Vec3 K := ⟨v.x / c, v.y / c, v.z / c⟩

/-- Dot product of 3-vectors (`np.dot`). -/
def dot3 (a b : Vec3 K) : K := a.x * b.x + a.y * b.y + a.z * b.z

/-- Squared euclidean norm of a 3-vector. -/
def sqnorm3 (a : Vec3 K) : K := a.x * a.x + a.y * a.y + a.z * a.z

/-- Cross product of 3-vectors (`np.cross`). -/
def cross3 (a b : Vec3 K) : Vec3 K :=
  ⟨a.y * b.z - a.z * b.y, a.z * b.x - a.x * b.z, a.x * b.y - a.y * b.x⟩

/-- 3×3 matrices stored by columns; `R[:,2]` is `R.cz`. -/
structure Mat3 (K : Type) where
  cx : Vec3 K
  cy : Vec3 K
  cz : Vec3 K
deriving DecidableEq

/-- Joint vectors: 7 joint angles or velocities. -/
abbrev Vec7 (K : Type) := Fin 7 → K

/-- The all-zeros joint vector (`np.zeros(7)`). -/
def zero7 : Vec7 K := fun _ => 0

/-- Squared euclidean norm of a stacked 6-vector task-space error. -/
def sqnorm6 (e : Fin 6 → K) : K := ∑ i, e i * e i

/-- `np.concatenate` of two 3-vectors into a 6-vector. -/
def concat6 (a b : Vec3 K) : Fin 6 → K := ![a.x, a.y, a.z, b.x, b.y, b.z]

/-- Truncation toward zero, as used by C's `fmod` (`math.fmod` in Python). -/
def truncK (x : K) : ℤ := if 0 ≤ x then ⌊x⌋ else ⌈x⌉

/-- `math.fmod x m`: remainder with the sign of `x`, `x - m * trunc (x/m)`. -/
def fmodK (x m : K) : K := x - m * (truncK (x / m) : K)

/-- Scalar body of `Controller.wrap_q`: `fmod(qi + pi, 2*pi) - pi`.
The value of `np.pi` is the explicit parameter `piK` (instantiated with
`Real.pi` over `ℝ`). -/
def wrap1 (piK x : K) : K := fmodK (x + piK) (2 * piK) - piK

/-- `Controller.wrap_q`: componentwise wrap of a joint vector. -/
def wrap_q (piK : K) (q : Vec7 K) : Vec7 K := fun i => wrap1 piK (q i)

/-- Modelled from the spec: `TrajectoryUtils.spline` is imported by both source
files but is not under `src/`.  Per the spec (§4.4) it is a smooth (at least
quintic) polynomial interpolant over `[0, T]` whose value and first derivative
exactly match the boundary joint positions and velocities, with zero boundary
acceleration.  This is the quintic Hermite interpolant with zero end
accelerations; it returns the pair (position, velocity) at query time `t`. -/
def spline1 (t T p0 pf v0 vf : K) : K × K :=
  let s := t / T
  (p0 * (1 - 10 * s ^ 3 + 15 * s ^ 4 - 6 * s ^ 5)
     + v0 * T * (s - 6 * s ^ 3 + 8 * s ^ 4 - 3 * s ^ 5)
     + pf * (10 * s ^ 3 - 15 * s ^ 4 + 6 * s ^ 5)
     + vf * T * (-4 * s ^ 3 + 7 * s ^ 4 - 3 * s ^ 5),
   (p0 * (-30 * s ^ 2 + 60 * s ^ 3 - 30 * s ^ 4)
     + v0 * T * (1 - 18 * s ^ 2 + 32 * s ^ 3 - 15 * s ^ 4)
     + pf * (30 * s ^ 2 - 60 * s ^ 3 + 30 * s ^ 4)
     + vf * T * (-12 * s ^ 2 + 28 * s ^ 3 - 15 * s ^ 4)) / T)

/-- Modelled from the spec: componentwise `spline` on joint vectors. -/
def spline (t T : K) (p0 pf v0 vf : Vec7 K) : Vec7 K × Vec7 K :=
  (fun i => (spline1 t T (p0 i) (pf i) (v0 i) (vf i)).1,
   fun i => (spline1 t T (p0 i) (pf i) (v0 i) (vf i)).2)

/-- Center of the spherical reachable task-space region,
`TASK_SPACE_P = [0, 0, 2 * TASK_SPACE_R]` with `TASK_SPACE_R = 0.3`. -/
def taskSpaceP : Vec3 K := ⟨0, 0, 3 / 5⟩

/-- The forward-integration loop of `compute_impact_conditions`
(both files; `dtB` and `g` are the per-file step and gravity).  Each step does
`p += v*dt; v += g*dt` (in-place in the source) and then tests whether the
ball has entered the reachable sphere (`norm (p - TASK_SPACE_P) < 0.3 * 0.9`)
while above the floor (`p.z > 0`); the first such step exits the loop.
Returns (`some (k, p_impact, v_impact)` for the first hit at loop index `k`,
or `none`) together with the final values of the mutated arrays `(p, v)`. -/
def ballRun (sqrtK : K → K) (dtB : K) (g : Vec3 K) :
    Nat → Vec3 K → Vec3 K → Option (Nat × Vec3 K × Vec3 K) × (Vec3 K × Vec3 K)
  | 0, p, v => (none, (p, v))
  | n + 1, p, v =>
    let p' := p + dtB • v
    let v' := v + dtB • g
    if sqrtK (sqnorm3 (p' - taskSpaceP)) < 27 / 100 ∧ 0 < p'.z then
      (some (0, p', v'), (p', v'))
    else
      let r := ballRun sqrtK dtB g n p' v'
      (r.1.map (fun u => (u.1 + 1, u.2)), r.2)

/-- Boundary exactness of the spec-modelled blender: at `t = 0` the spline
returns exactly the start position and velocity. -/
theorem spline1_at_zero (T p0 pf v0 vf : K) (hT : T ≠ 0) :
    spline1 0 T p0 pf v0 vf = (p0, v0) := by
  unfold spline1
  simp only [zero_div]
  norm_num
  field_simp

/-- Boundary exactness of the spec-modelled blender: at `t = T` the spline
returns exactly the end position and velocity. -/
theorem spline1_at_T (T p0 pf v0 vf : K) (hT : T ≠ 0) :
    spline1 T T p0 pf v0 vf = (pf, vf) := by
  unfold spline1
  rw [div_self hT]
  norm_num
  field_simp

/-- The fixed reference up-vector `y_guess = [0, 1, 0]`. -/
def yGuess : Vec3 K := ⟨0, 1, 0⟩

/-- `v / np.linalg.norm(v)` with the square root explicit. -/
def normalize3 (sqrtK : K → K) (v : Vec3 K) : Vec3 K := divS v (sqrtK (sqnorm3 v))

/-- The paddle orientation frame built by `compute_impact_conditions` (both
files): the contact normal `z` is `w` normalized, `x` is `cross(y_guess, z)`
normalized, `y = cross(z, x)`, and `R = vstack((x, y, z)).T` (columns x,y,z). -/
def impactFrame (sqrtK : K → K) (w : Vec3 K) : Mat3 K :=
  let z := normalize3 sqrtK w
  let x := normalize3 sqrtK (cross3 yGuess z)
  let y := cross3 z x
  ⟨x, y, z⟩

/-- Result record of `compute_impact_conditions`: the returned 5-tuple
`(p, pd, R, w, t_impact_from_now)` plus (explicit state passing for the
in-place `+=` mutation) the final values of the caller's `p_ball`, `v_ball`
arrays. -/
structure ImpactOut (K : Type) where
  p : Vec3 K
  pd : Vec3 K
  R : Mat3 K
  w : Vec3 K
  t : K
  bp : Vec3 K
  bv : Vec3 K
deriving DecidableEq

/-- Gravity vector of `Controller.py`: `[0, 0, -9.82]`. -/
def gravC : Vec3 K := ⟨0, 0, -(491 / 50)⟩

/-- Gravity vector of `Trajectory.py`: `[0, 0, -9.8]`. -/
def gravT : Vec3 K := ⟨0, 0, -(49 / 5)⟩

/-- `Controller.py`: desired post-impact ball velocity,
`(p_impact_to_target - 0.5 * gravity * t_hit**2) / t_hit` with the fixed
flight time `t_hit_to_target = 0.5`. -/
def pdAfterC (ptarget pimp : Vec3 K) : Vec3 K :=
  divS ((ptarget - pimp) - ((1 / 2 : K) * (1 / 2) ^ 2) • gravC) (1 / 2)

/-- `Controller.compute_impact_conditions`: forward-integrate the ball
(300 steps of 0.01 s, the 3 s horizon); on the first entry into the reachable
sphere return the impact point, paddle velocity/orientation and time from now;
if the horizon is exhausted return the rest pose `(p0, pd0, R0, w0)` with
time 1. -/
def compute_impact_conditionsC (sqrtK : K → K) (p0 pd0 : Vec3 K) (R0 : Mat3 K)
    (w0 : Vec3 K) (pball vball ptarget : Vec3 K) : ImpactOut K :=
  let r := ballRun sqrtK (1 / 100) gravC 300 pball vball
  match r.1 with
  | none => ⟨p0, pd0, R0, w0, 1, r.2.1, r.2.2⟩
  | some (k, pimp, vimp) =>
    let pdAfter := pdAfterC ptarget pimp
    let Rimp := impactFrame sqrtK (pdAfter - vimp)
    let pdz := (1 / 2) * dot3 Rimp.cz (vimp + pdAfter)
    ⟨pimp, pdz • Rimp.cz, Rimp, 0, (k : K) * (1 / 100), r.2.1, r.2.2⟩

/-- `Trajectory.py`: desired post-impact ball velocity, with flight time
`t_hit_to_target = 0.2 * norm(p_impact_to_target)`. -/
def pdAfterT (sqrtK : K → K) (ptarget pimp : Vec3 K) : Vec3 K :=
  let dp := ptarget - pimp
  let tht := (1 / 5) * sqrtK (sqnorm3 dp)
  divS (dp - ((1 / 2) * tht ^ 2) • gravT) tht

/-- `Trajectory.compute_impact_conditions`: 600 steps of 0.005 s (3 s
horizon); its paddle normal is `-pd_ball_impact` normalized and the desired
paddle velocity is zero. -/
def compute_impact_conditionsT (sqrtK : K → K) (p0 pd0 : Vec3 K) (R0 : Mat3 K)
    (w0 : Vec3 K) (pball vball ptarget : Vec3 K) : ImpactOut K :=
  let r := ballRun sqrtK (1 / 200) gravT 600 pball vball
  match r.1 with
  | none => ⟨p0, pd0, R0, w0, 1, r.2.1, r.2.2⟩
  | some (k, pimp, vimp) =>
    let Rimp := impactFrame sqrtK (-vimp)
    ⟨pimp, 0, Rimp, 0, (k : K) * (1 / 200), r.2.1, r.2.2⟩

/-- Output of the external `KinematicChain.fkin` (spec §4.1): end-effector
position, orientation and the stacked linear/angular Jacobian rows. -/
structure FkinOut (K : Type) where
  p : Vec3 K
  R : Mat3 K
  Jv : Fin 3 → Vec7 K
  Jw : Fin 3 → Vec7 K

/-- `np.vstack((Jv, Jw))`: the 6×7 stacked Jacobian, row by row. -/
def jacOf (o : FkinOut K) : Fin 6 → Vec7 K :=
  ![o.Jv 0, o.Jv 1, o.Jv 2, o.Jw 0, o.Jw 1, o.Jw 2]

/-- Task-space error of `Controller.ikin`: position error stacked with
`0.5 * cross(R[:,2], R_goal[:,2])` (only the paddle normal is tracked). -/
def errC (o : FkinOut K) (pgoal : Vec3 K) (Rgoal : Mat3 K) : Fin 6 → K :=
  concat6 (pgoal - o.p) ((1 / 2 : K) • cross3 o.R.cz Rgoal.cz)

/-- Task-space error of `Trajectory.ikin_q_qd`: position error stacked with
half the sum of the cross products of all three orientation columns. -/
def errT (o : FkinOut K) (pgoal : Vec3 K) (Rgoal : Mat3 K) : Fin 6 → K :=
  concat6 (pgoal - o.p)
    ((1 / 2 : K) •
      (cross3 o.R.cx Rgoal.cx + cross3 o.R.cy Rgoal.cy + cross3 o.R.cz Rgoal.cz))

/-- `ARM_WEIGHTS` after the sort: `[0.3, 0.4, 0.5, 0.7, 1, 1.5, 1.5]`. -/
def armW : Fin 7 → K := ![3 / 10, 2 / 5, 1 / 2, 7 / 10, 1, 3 / 2, 3 / 2]

/-- Diagonal of `W1**2` with `W1 = diag([1, 1, 1, 10, 10, 10])`. -/
def w1sq : Fin 6 → K := ![1, 1, 1, 100, 100, 100]

/-- The matrix `Jac.T @ W1**2 @ Jac + gamma**2 * W2**2` (`gamma = 0.1`,
`W2 = diag(ARM_WEIGHTS)`) fed to `np.linalg.pinv` in `Controller.ikin`. -/
def ikinM (jac : Fin 6 → Vec7 K) : Fin 7 → Fin 7 → K :=
  fun i j => (∑ k, jac k i * w1sq k * jac k j)
    + (1 / 100) * (if i = j then armW i ^ 2 else 0)

/-- `J_pinv = pinv(Jac.T @ W1**2 @ Jac + gamma**2 * W2**2) @ Jac.T @ W1**2`,
with `np.linalg.pinv` (external library code) as the parameter `pinvFn`. -/
def jPinvC (pinvFn : (Fin 7 → Fin 7 → K) → Fin 7 → Fin 7 → K)
    (jac : Fin 6 → Vec7 K) : Fin 7 → Fin 6 → K :=
  fun i k => (∑ j, pinvFn (ikinM jac) i j * jac k j) * w1sq k

/-- 7×6 matrix times 6-vector. -/
def mulMV67 (A : Fin 7 → Fin 6 → K) (e : Fin 6 → K) : Vec7 K :=
  fun i => ∑ k, A i k * e k

/-- The bounded Newton loop of `Controller.ikin` (fuel = `MAX_ITER = 500`).
Each iteration evaluates `fkin`, computes the task error, breaks with
`converged = True` if `norm(error) < 1e-7`, and otherwise takes the half-step
`q += 0.5 * (J_pinv @ error)`. -/
def ikinLoopC (F : Vec7 K → FkinOut K)
    (pinvFn : (Fin 7 → Fin 7 → K) → Fin 7 → Fin 7 → K) (sqrtK : K → K)
    (pgoal : Vec3 K) (Rgoal : Mat3 K) : Nat → Vec7 K → Bool × Vec7 K
  | 0, q => (false, q)
  | n + 1, q =>
    let o := F q
    let e := errC o pgoal Rgoal
    if sqrtK (sqnorm6 e) < 1 / 10 ^ 7 then (true, q)
    else
      let dq := mulMV67 (jPinvC pinvFn (jacOf o)) e
      ikinLoopC F pinvFn sqrtK pgoal Rgoal n (q + (1 / 2 : K) • dq)

/-- `Controller.ikin`: run the Newton loop from the engine's current `q`;
afterwards solve `qd = J_pinv @ concat(pd_goal, w_goal)` at the final
configuration.  On convergence return `(wrap_q(q), qd)`, otherwise
`(None, None)` (embedded as `Option` of the pair). -/
def ikinC (F : Vec7 K → FkinOut K)
    (pinvFn : (Fin 7 → Fin 7 → K) → Fin 7 → Fin 7 → K) (sqrtK : K → K)
    (piK : K) (qinit : Vec7 K) (pgoal pdgoal : Vec3 K) (Rgoal : Mat3 K)
    (wgoal : Vec3 K) : Option (Vec7 K × Vec7 K) :=
  let r := ikinLoopC F pinvFn sqrtK pgoal Rgoal 500 qinit
  let o := F r.2
  let qd := mulMV67 (jPinvC pinvFn (jacOf o)) (concat6 pdgoal wgoal)
  if r.1 then some (wrap_q piK r.2, qd) else none

/-- Modelled from the spec: `MatrixUtils.weighted_pinv` is imported by
`Trajectory.py` but is not under `src/`; the spec (§4.2) describes it as a
damped weighted pseudo-inverse of the stacked Jacobian.  It is treated as an
opaque parameter `wpinv` mapping the 6×7 Jacobian to a 7×6 matrix. -/
abbrev WPinv (K : Type) := (Fin 6 → Vec7 K) → Fin 7 → Fin 6 → K

/-- The bounded Newton loop of `Trajectory.ikin_q_qd` (fuel = 500).  Each
iteration evaluates `fkin`, computes the error, updates
`q += weighted_pinv(Jac) @ error`, appends `norm(error)` to the trace, and
breaks if `norm(error) < 1e-3`. -/
def ikinLoopT (F : Vec7 K → FkinOut K) (wpinv : WPinv K) (sqrtK : K → K)
    (pgoal : Vec3 K) (Rgoal : Mat3 K) :
    Nat → Vec7 K → List K → Option (Vec7 K) × List K
  | 0, _, tr => (none, tr)
  | n + 1, q, tr =>
    let o := F q
    let e := errT o pgoal Rgoal
    let q' := q + mulMV67 (wpinv (jacOf o)) e
    let m := sqrtK (sqnorm6 e)
    let tr' := tr ++ [m]
    if m < 1 / 1000 then (some q', tr')
    else ikinLoopT F wpinv sqrtK pgoal Rgoal n q' tr'

/-- `Trajectory.ikin_q_qd`: on convergence `(q, qd, None)`, on failure
`(None, None, error_magnitudes)`; embedded as
`(Option (q, qd)) × (Option trace)`. -/
def ikin_q_qd (F : Vec7 K → FkinOut K) (wpinv : WPinv K) (sqrtK : K → K)
    (qinit : Vec7 K) (pgoal pdgoal : Vec3 K) (Rgoal : Mat3 K) (wgoal : Vec3 K) :
    Option (Vec7 K × Vec7 K) × Option (List K) :=
  match ikinLoopT F wpinv sqrtK pgoal Rgoal 500 qinit [] with
  | (some q, _) =>
    let o := F q
    let qd := mulMV67 (wpinv (jacOf o)) (concat6 pdgoal wgoal)
    (some (q, qd), none)
  | (none, tr) => (none, some tr)

/-- Persistent engine state of `Controller` (instance attributes): the rest
pose (`q0 … w0`), the last computed kinematic state (`q … w`), and the active
trajectory segment boundary fields, each `None` until first set. -/
structure EngState (K : Type) where
  q0 : Vec7 K
  qd0 : Vec7 K
  p0 : Vec3 K
  pd0 : Vec3 K
  R0 : Mat3 K
  w0 : Vec3 K
  q : Vec7 K
  qd : Vec7 K
  p : Vec3 K
  pd : Vec3 K
  R : Mat3 K
  w : Vec3 K
  t_start : Option K
  q_start : Option (Vec7 K)
  qd_start : Option (Vec7 K)
  t_end : Option K
  q_end : Option (Vec7 K)
  qd_end : Option (Vec7 K)
deriving DecidableEq

/-- `Controller.set_idle` (with the default `t_to_idle = 1.5`): open an
idle-return segment from the current joint state to the rest configuration. -/
def set_idle (s : EngState K) (t : K) : EngState K :=
  { s with t_start := some t, q_start := some s.q, qd_start := some s.qd,
           t_end := some (t + 3 / 2), q_end := some s.q0, qd_end := some s.qd0 }

/-- Per-tick result of `Controller.evaluate`: the updated engine state, the
returned tuple `(q, qd, p, pd, R, w)`, the diagnostic string, and (explicit
state passing) the final values of the caller's ball observation arrays. -/
structure EvalOut (K : Type) where
  state : EngState K
  q : Vec7 K
  qd : Vec7 K
  p : Vec3 K
  pd : Vec3 K
  R : Mat3 K
  w : Vec3 K
  msg : String
  ballObs : Vec3 K × Vec3 K
deriving DecidableEq

/-- 3×7 Jacobian block times joint velocity (`Jv @ qd`). -/
def mulJ3 (J : Fin 3 → Vec7 K) (qd : Vec7 K) : Vec3 K :=
  ⟨∑ i, J 0 i * qd i, ∑ i, J 1 i * qd i, ∑ i, J 2 i * qd i⟩

/-- `Controller.evaluate`: on a regenerated event, replan (predictor + IK,
falling back to `set_idle` on IK failure, with diagnostics); then, if no
segment is active or the active one has expired, `set_idle`; finally blend
the active segment with `spline` on the `wrap_q`-wrapped joint delta, add
`q_start` back, and push through `fkin` for the task-space outputs.  The
numeric formatting inside the success f-string is elided; the failure message
is the source literal. -/
def evaluateC (F : Vec7 K → FkinOut K)
    (pinvFn : (Fin 7 → Fin 7 → K) → Fin 7 → Fin 7 → K) (sqrtK : K → K)
    (piK : K) (s : EngState K) (t dt : K) (ball_pos ball_vel goal_pos : Vec3 K)
    (regenerated : Bool) : EvalOut K :=
  let step1 : EngState K × String × (Vec3 K × Vec3 K) :=
    if regenerated then
      let imp := compute_impact_conditionsC sqrtK s.p0 s.pd0 s.R0 s.w0
        ball_pos ball_vel goal_pos
      let s1 := { s with t_start := some t, q_start := some s.q,
                         qd_start := some s.qd, t_end := some (t + imp.t) }
      match ikinC F pinvFn sqrtK piK s.q imp.p imp.pd imp.R imp.w with
      | some (qe, qde) =>
        ({ s1 with q_end := some qe, qd_end := some qde },
         "Expected impact parameters: p= , R = ", (imp.bp, imp.bv))
      | none => (set_idle s1 t, "Newton Raphson did not converge.", (imp.bp, imp.bv))
    else (s, "", (ball_pos, ball_vel))
  let s1 := step1.1
  let s2 := match s1.t_end with
    | none => set_idle s1 t
    | some te => if te < t then set_idle s1 t else s1
  let ts := s2.t_start.getD 0
  let te := s2.t_end.getD 0
  let qs := s2.q_start.getD zero7
  let qds := s2.qd_start.getD zero7
  let qe := s2.q_end.getD zero7
  let qde := s2.qd_end.getD zero7
  let q_diff : Vec7 K := fun i => qe i - qs i
  let bl := spline (t - ts) (te - ts) zero7 (wrap_q piK q_diff) qds qde
  let q : Vec7 K := fun i => bl.1 i + qs i
  let qd := bl.2
  let o := F q
  let pd := mulJ3 o.Jv qd
  let w := mulJ3 o.Jw qd
  { state := { s2 with q := q, qd := qd, p := o.p, pd := pd, R := o.R, w := w },
    q := q, qd := qd, p := o.p, pd := pd, R := o.R, w := w,
    msg := step1.2.1, ballObs := step1.2.2 }

/-- `Controller.__init__`: idle joint configuration
`radians([-90, 45, 0, -90, -45, 0, 0])`. -/
def q0C (piK : K) : Vec7 K :=
  fun i => piK * (![-(1 / 2), 1 / 4, 0, -(1 / 2), -(1 / 4), 0, 0] i : K)

/-- `Controller.__init__`: the rest pose comes from `fkin(q0)`, all rest
velocities are zero, and no trajectory segment is active yet. -/
def initC (F : Vec7 K → FkinOut K) (piK : K) : EngState K :=
  let q0 := q0C piK
  let o := F q0
  { q0 := q0, qd0 := zero7, p0 := o.p, pd0 := 0, R0 := o.R, w0 := 0,
    q := q0, qd := zero7, p := o.p, pd := 0, R := o.R, w := 0,
    t_start := none, q_start := none, qd_start := none,
    t_end := none, q_end := none, qd_end := none }

/-- Vector-level boundary exactness at `t = 0`. -/
theorem spline_at_zero (T : K) (p0 pf v0 vf : Vec7 K) (hT : T ≠ 0) :
    spline 0 T p0 pf v0 vf = (p0, v0) := by
  unfold spline
  refine Prod.ext ?_ ?_ <;> funext i <;>
    simp [spline1_at_zero (K := K) T (p0 i) (pf i) (v0 i) (vf i) hT]

/-- Vector-level boundary exactness at `t = T`. -/
theorem spline_at_T (T : K) (p0 pf v0 vf : Vec7 K) (hT : T ≠ 0) :
    spline T T p0 pf v0 vf = (pf, vf) := by
  unfold spline
  refine Prod.ext ?_ ?_ <;> funext i <;>
    simp [spline1_at_T (K := K) T (p0 i) (pf i) (v0 i) (vf i) hT]

/-- For arguments `x ≥ -pi` the wrap lands in `[-pi, pi)` and differs from `x`
by an integer multiple of `2*pi`. -/
theorem wrap1_of_ge_neg_pi (piK x : K) (hpi : 0 < piK) (hx : -piK ≤ x) :
    (-piK ≤ wrap1 piK x ∧ wrap1 piK x < piK) ∧
      ∃ k : ℤ, wrap1 piK x = x - 2 * piK * k := by
  have hy : (0 : K) ≤ x + piK := by linarith
  have hm : (0 : K) < 2 * piK := by linarith
  have hq : (0 : K) ≤ (x + piK) / (2 * piK) := div_nonneg hy hm.le
  have htr : truncK ((x + piK) / (2 * piK)) = ⌊(x + piK) / (2 * piK)⌋ := by
    simp [truncK, hq]
  have h2 : 2 * piK * ((x + piK) / (2 * piK)) = x + piK := by
    field_simp
  have hfr : wrap1 piK x
      = 2 * piK * Int.fract ((x + piK) / (2 * piK)) - piK := by
    unfold wrap1 fmodK
    rw [htr, Int.fract, mul_sub, h2]
  constructor
  · constructor
    · rw [hfr]
      have := Int.fract_nonneg ((x + piK) / (2 * piK))
      nlinarith
    · rw [hfr]
      have := Int.fract_lt_one ((x + piK) / (2 * piK))
      nlinarith
  · refine ⟨⌊(x + piK) / (2 * piK)⌋, ?_⟩
    unfold wrap1 fmodK
    rw [htr]
    ring

/-- `wrap_q`'s actual total range: every output lies in `(-3*pi, pi)`. -/
theorem wrap1_mem_range (piK x : K) (hpi : 0 < piK) :
    -(3 * piK) < wrap1 piK x ∧ wrap1 piK x < piK := by
  rcases le_or_lt 0 (x + piK) with hy | hy
  · have h := wrap1_of_ge_neg_pi piK x hpi (by linarith)
    constructor
    · nlinarith [h.1.1]
    · exact h.1.2
  · have hm : (0 : K) < 2 * piK := by linarith
    have hu : (x + piK) / (2 * piK) < 0 := div_neg_of_neg_of_pos hy hm
    set u := (x + piK) / (2 * piK) with hudef
    have htr : truncK u = ⌈u⌉ := by
      simp [truncK, not_le.mpr hu]
    have h2 : 2 * piK * u = x + piK := by
      rw [hudef]
      field_simp
    have hceil1 : (⌈u⌉ : K) < u + 1 := Int.ceil_lt_add_one u
    have hceil2 : u ≤ (⌈u⌉ : K) := Int.le_ceil u
    have hw : wrap1 piK x = 2 * piK * (u - (⌈u⌉ : K)) - piK := by
      unfold wrap1 fmodK
      rw [← hudef, htr, mul_sub, h2]
    constructor
    · rw [hw]
      nlinarith
    · rw [hw]
      nlinarith

/-- Fixture: a constant external kinematic chain (zero Jacobians), used to
instantiate the external `fkin` parameter in witnesses. -/
def fkinConst (p : Vec3 K) (R : Mat3 K) : Vec7 K → FkinOut K :=
  fun _ => ⟨p, R, fun _ => zero7, fun _ => zero7⟩

/-- Fixture: the zero pseudo-inverse oracle used by witnesses. -/
def pinvZ : (Fin 7 → Fin 7 → K) → Fin 7 → Fin 7 → K := fun _ _ _ => 0

/-- The identity rotation matrix. -/
def idM3 : Mat3 K := ⟨⟨1, 0, 0⟩, ⟨0, 1, 0⟩, ⟨0, 0, 1⟩⟩

/-- Fixture: an engine state with an active unit-length segment starting at
time 0, used by witnesses. -/
def wState : EngState ℚ :=
  ⟨zero7, zero7, 0, 0, ⟨0, 0, 0⟩, 0, zero7, zero7, 0, 0, ⟨0, 0, 0⟩, 0,
   some 0, some zero7, some zero7, some 1, some zero7, some zero7⟩

/-- C1 (boundary exactness of the trajectory blend): for every valid duration
`T > 0`, the blender evaluated at query time `0` returns exactly
`(q_start, qd_start)` and at `T` exactly `(q_end, qd_end)`, per joint; and the
per-tick `Controller.evaluate`, called at `t = t_start` of its active segment,
outputs exactly `q = q_start` and `qd = qd_start`. -/
theorem C1_blend_boundary_exactness :
    (∀ (T : K) (p0 pf v0 vf : Vec7 K), 0 < T →
      spline 0 T p0 pf v0 vf = (p0, v0) ∧ spline T T p0 pf v0 vf = (pf, vf)) ∧
    (∀ (F : Vec7 K → FkinOut K)
        (pinvFn : (Fin 7 → Fin 7 → K) → Fin 7 → Fin 7 → K) (sqrtK : K → K)
        (piK : K) (s : EngState K) (t dt : K) (bp bv gp : Vec3 K) (te : K)
        (qs qds qe qde : Vec7 K),
      s.t_start = some t → s.t_end = some te → t < te →
      s.q_start = some qs → s.qd_start = some qds →
      s.q_end = some qe → s.qd_end = some qde →
      (evaluateC F pinvFn sqrtK piK s t dt bp bv gp false).q = qs ∧
      (evaluateC F pinvFn sqrtK piK s t dt bp bv gp false).qd = qds) := by
  constructor
  · intro T p0 pf v0 vf hT
    exact ⟨spline_at_zero T p0 pf v0 vf (ne_of_gt hT),
           spline_at_T T p0 pf v0 vf (ne_of_gt hT)⟩
  · intro F pinvFn sqrtK piK s t dt bp bv gp te qs qds qe qde h1 h2 h3 h4 h5 h6 h7
    have hne : te - t ≠ 0 := sub_ne_zero.mpr (ne_of_gt h3)
    have hnlt : ¬ te < t := not_lt.mpr h3.le
    unfold evaluateC
    simp only [Bool.false_eq_true, if_false, h1, h2, h4, h5, h6, h7, hnlt,
      Option.getD_some]
    constructor
    · funext i
      rw [sub_self t, spline_at_zero (te - t) _ _ _ _ hne]
      simp [zero7]
    · funext i
      rw [sub_self t, spline_at_zero (te - t) _ _ _ _ hne]

/-- Witness for C1 at concrete inputs: duration 1 and a concrete active
segment of `wState` starting at time 0. -/
theorem C1_blend_boundary_exactness_witness :
    ((0 : ℚ) < 1 ∧
      spline (0 : ℚ) 1 zero7 zero7 zero7 zero7 = (zero7, zero7) ∧
      spline (1 : ℚ) 1 zero7 zero7 zero7 zero7 = (zero7, zero7)) ∧
    ((evaluateC (fkinConst 0 idM3) pinvZ id 3 wState 0 (1 / 100) 0 0 0 false).q
        = zero7 ∧
      (evaluateC (fkinConst 0 idM3) pinvZ id 3 wState 0 (1 / 100) 0 0 0 false).qd
        = zero7) := by
  have h1 := (C1_blend_boundary_exactness (K := ℚ)).1 1 zero7 zero7 zero7 zero7
    (by norm_num)
  have h2 := (C1_blend_boundary_exactness (K := ℚ)).2 (fkinConst 0 idM3) pinvZ
    id 3 wState 0 (1 / 100) 0 0 0 1 zero7 zero7 zero7 zero7 rfl rfl (by norm_num)
    rfl rfl rfl rfl
  exact ⟨⟨by norm_num, h1⟩, h2⟩

/-- On `(-3*pi, -pi)` the wrap is the identity: arguments below `-pi` are not
brought into the canonical range. -/
theorem wrap1_eq_self_of_neg (piK x : K) (h1 : -(2 * piK) < x + piK)
    (h2 : x + piK < 0) : wrap1 piK x = x := by
  have hpi : 0 < piK := by nlinarith
  have hm : (0 : K) < 2 * piK := by linarith
  have hu0 : (x + piK) / (2 * piK) < 0 := div_neg_of_neg_of_pos h2 hm
  have hu1 : (-1 : K) < (x + piK) / (2 * piK) := by
    rw [lt_div_iff hm]
    linarith
  have hceil : ⌈(x + piK) / (2 * piK)⌉ = 0 := by
    rw [Int.ceil_eq_zero_iff]
    constructor
    · exact hu1
    · exact hu0.le
  have htr : truncK ((x + piK) / (2 * piK)) = 0 := by
    rw [truncK, if_neg (not_le.mpr hu0), hceil]
  unfold wrap1 fmodK
  rw [htr]
  push_cast
  ring

/-- `wrap_q` fixes `0`. -/
theorem wrap1_zero (piK : K) (hpi : 0 < piK) : wrap1 piK 0 = 0 := by
  have hm : (0 : K) < 2 * piK := by linarith
  have hu : (0 + piK) / (2 * piK) = 1 / 2 := by
    rw [zero_add]
    rw [div_eq_div_iff hm.ne.symm (by norm_num : (2 : K) ≠ 0)]
    ring
  have htr : truncK ((0 + piK) / (2 * piK)) = 0 := by
    rw [truncK, hu, if_pos (by norm_num : (0 : K) ≤ 1 / 2)]
    rw [Int.floor_eq_zero_iff]
    constructor <;> norm_num
  unfold wrap1 fmodK
  rw [htr]
  push_cast
  ring

/-- If the Trajectory Newton loop fails, it has appended exactly one
error-norm entry per iteration of fuel, and every appended entry failed the
convergence test. -/
theorem ikinLoopT_none_trace (F : Vec7 K → FkinOut K) (wpinv : WPinv K)
    (sqrtK : K → K) (pg : Vec3 K) (Rg : Mat3 K) :
    ∀ (n : Nat) (q : Vec7 K) (tr : List K),
      (ikinLoopT F wpinv sqrtK pg Rg n q tr).1 = none →
      (ikinLoopT F wpinv sqrtK pg Rg n q tr).2.length = tr.length + n ∧
      ∀ m ∈ (ikinLoopT F wpinv sqrtK pg Rg n q tr).2, m ∈ tr ∨ ¬ m < 1 / 1000 := by
  intro n
  induction n with
  | zero =>
    intro q tr h
    simp only [ikinLoopT]
    exact ⟨by simp, fun m hm => Or.inl hm⟩
  | succ n ih =>
    intro q tr h
    by_cases hc : sqrtK (sqnorm6 (errT (F q) pg Rg)) < 1 / 1000
    · simp only [ikinLoopT, if_pos hc] at h
      simp at h
    · simp only [ikinLoopT, if_neg hc] at h ⊢
      obtain ⟨hl, hm⟩ := ih _ _ h
      refine ⟨by rw [hl]; simp; omega, ?_⟩
      intro m hmem
      rcases hm m hmem with hin | hbig
      · rcases List.mem_append.mp hin with h1 | h2
        · exact Or.inl h1
        · simp only [List.mem_singleton] at h2
          subst h2
          exact Or.inr hc
      · exact Or.inr hbig

/-- If the Controller Newton loop reports convergence, the returned
configuration satisfies the convergence test. -/
theorem ikinLoopC_conv (F : Vec7 K → FkinOut K)
    (pinvFn : (Fin 7 → Fin 7 → K) → Fin 7 → Fin 7 → K) (sqrtK : K → K)
    (pg : Vec3 K) (Rg : Mat3 K) :
    ∀ (n : Nat) (q : Vec7 K),
      (ikinLoopC F pinvFn sqrtK pg Rg n q).1 = true →
      sqrtK (sqnorm6 (errC (F (ikinLoopC F pinvFn sqrtK pg Rg n q).2) pg Rg))
        < 1 / 10 ^ 7 := by
  intro n
  induction n with
  | zero =>
    intro q h
    simp [ikinLoopC] at h
  | succ n ih =>
    intro q h
    by_cases hc : sqrtK (sqnorm6 (errC (F q) pg Rg)) < 1 / 10 ^ 7
    · simp only [ikinLoopC, if_pos hc] at h ⊢
      exact hc
    · simp only [ikinLoopC, if_neg hc] at h ⊢
      exact ih _ h

/-- C3 amended: both IK solvers are capped at 500 Newton iterations (the
loop is exhausted after at most 500 `fkin` evaluations) and report failure as
a `None` joint result rather than looping indefinitely or returning a
non-converged configuration as success.  The per-iteration error-magnitude
trace the claim describes exists only in `Trajectory.ikin_q_qd`: on failure
it returns exactly 500 recorded magnitudes, each of which failed the `1e-3`
tolerance test.  `Controller.ikin` on success returns a configuration whose
task error satisfied the `1e-7` tolerance (wrapped by `wrap_q`), and on
non-convergence returns the bare `(None, None)` — no trace. -/
theorem C3_ikin_cap_and_failure_reporting :
    (∀ (F : Vec7 K → FkinOut K) (wpinv : WPinv K) (sqrtK : K → K)
        (qinit : Vec7 K) (pg pd : Vec3 K) (Rg : Mat3 K) (w : Vec3 K),
      (∃ q qd, ikin_q_qd F wpinv sqrtK qinit pg pd Rg w = (some (q, qd), none)) ∨
      (∃ tr, ikin_q_qd F wpinv sqrtK qinit pg pd Rg w = (none, some tr) ∧
        tr.length = 500 ∧ ∀ m ∈ tr, ¬ m < 1 / 1000)) ∧
    (∀ (F : Vec7 K → FkinOut K)
        (pinvFn : (Fin 7 → Fin 7 → K) → Fin 7 → Fin 7 → K) (sqrtK : K → K)
        (piK : K) (qinit : Vec7 K) (pg pd : Vec3 K) (Rg : Mat3 K) (w : Vec3 K),
      (∃ qpre qd, ikinC F pinvFn sqrtK piK qinit pg pd Rg w
          = some (wrap_q piK qpre, qd) ∧
        sqrtK (sqnorm6 (errC (F qpre) pg Rg)) < 1 / 10 ^ 7) ∨
      ikinC F pinvFn sqrtK piK qinit pg pd Rg w = none) := by
  constructor
  · intro F wpinv sqrtK qinit pg pd Rg w
    rcases hr : ikinLoopT F wpinv sqrtK pg Rg 500 qinit [] with ⟨oq, tr⟩
    cases oq with
    | some q =>
      left
      refine ⟨q, mulMV67 (wpinv (jacOf (F q))) (concat6 pd w), ?_⟩
      simp only [ikin_q_qd, hr]
    | none =>
      right
      refine ⟨tr, ?_, ?_, ?_⟩
      · simp only [ikin_q_qd, hr]
      · have := (ikinLoopT_none_trace F wpinv sqrtK pg Rg 500 qinit []
          (by rw [hr])).1
        rw [hr] at this
        simpa using this
      · intro m hm
        have h2 := (ikinLoopT_none_trace F wpinv sqrtK pg Rg 500 qinit []
          (by rw [hr])).2
        rw [hr] at h2
        rcases h2 m hm with hin | hbig
        · simp at hin
        · exact hbig
  · intro F pinvFn sqrtK piK qinit pg pd Rg w
    by_cases hc : (ikinLoopC F pinvFn sqrtK pg Rg 500 qinit).1 = true
    · left
      refine ⟨(ikinLoopC F pinvFn sqrtK pg Rg 500 qinit).2,
        mulMV67 (jPinvC pinvFn (jacOf (F (ikinLoopC F pinvFn sqrtK pg Rg 500 qinit).2)))
          (concat6 pd w), ?_, ?_⟩
      · simp only [ikinC, hc, if_true]
      · exact ikinLoopC_conv F pinvFn sqrtK pg Rg 500 qinit hc
    · right
      simp only [ikinC, Bool.not_eq_true] at hc ⊢
      simp [hc]

/-- One Euler step of the ballistic integration:
`p += v*dt` then `v += gravity*dt`. -/
def ballStep (dtB : K) (g : Vec3 K) (s : Vec3 K × Vec3 K) : Vec3 K × Vec3 K :=
  (s.1 + dtB • s.2, s.2 + dtB • g)

/-- The loop's entry test: inside the (0.9-shrunk) reachable sphere and above
the floor. -/
abbrev ballCond (sqrtK : K → K) (s : Vec3 K × Vec3 K) : Prop :=
  sqrtK (sqnorm3 (s.1 - taskSpaceP)) < 27 / 100 ∧ 0 < s.1.z

theorem v3add_def (a b : Vec3 K) :
    a + b = (⟨a.x + b.x, a.y + b.y, a.z + b.z⟩ : Vec3 K) := rfl

theorem v3sub_def (a b : Vec3 K) :
    a - b = (⟨a.x - b.x, a.y - b.y, a.z - b.z⟩ : Vec3 K) := rfl

theorem v3smul_def (c : K) (a : Vec3 K) :
    c • a = (⟨c * a.x, c * a.y, c * a.z⟩ : Vec3 K) := rfl

theorem v3neg_def (a : Vec3 K) : -a = (⟨-a.x, -a.y, -a.z⟩ : Vec3 K) := rfl

theorem v3zero_def : (0 : Vec3 K) = ⟨0, 0, 0⟩ := rfl

/-- A found crossing of the integration loop is exactly the first step whose
post-update state enters the reachable sphere above the floor, and its index
is below the fuel. -/
theorem ballRun_some_char (sqrtK : K → K) (dtB : K) (g : Vec3 K) :
    ∀ (n k : Nat) (p v pimp vimp : Vec3 K),
      (ballRun sqrtK dtB g n p v).1 = some (k, pimp, vimp) →
      k < n ∧ (pimp, vimp) = (ballStep dtB g)^[k + 1] (p, v) ∧
      ballCond sqrtK ((ballStep dtB g)^[k + 1] (p, v)) ∧
      ∀ j < k, ¬ ballCond sqrtK ((ballStep dtB g)^[j + 1] (p, v)) := by
  intro n
  induction n with
  | zero =>
    intro k p v pimp vimp h
    exact Option.noConfusion h
  | succ n ih =>
    intro k p v pimp vimp h
    by_cases hc : sqrtK (sqnorm3 ((p + dtB • v) - taskSpaceP)) < 27 / 100 ∧
        0 < (p + dtB • v).z
    · simp only [ballRun, if_pos hc] at h
      obtain ⟨hk, hpi, hvi⟩ := by
        simpa using h
      subst hk
      refine ⟨Nat.succ_pos n, ?_, ?_, ?_⟩
      · simp [Function.iterate_one, ballStep, hpi, hvi]
      · simpa [Function.iterate_one, ballStep] using hc
      · intro j hj
        omega
    · simp only [ballRun, if_neg hc] at h
      rcases hmap : (ballRun sqrtK dtB g n (p + dtB • v) (v + dtB • g)).1 with
        _ | u
      · rw [hmap] at h
        exact Option.noConfusion h
      · rw [hmap] at h
        rw [Option.map_some'] at h
        obtain ⟨k', pimp', vimp'⟩ := u
        obtain ⟨hk, hpi, hvi⟩ := by
          simpa using h
        obtain ⟨hlt, hit, hcond, hfirst⟩ := ih k' (p + dtB • v) (v + dtB • g)
          pimp' vimp' hmap
        have hstep : ∀ m : Nat, (ballStep dtB g)^[m + 1] (p, v)
            = (ballStep dtB g)^[m] (p + dtB • v, v + dtB • g) := by
          intro m
          rw [Function.iterate_succ_apply]
          rfl
        subst hk hpi hvi
        refine ⟨by omega, ?_, ?_, ?_⟩
        · rw [show k' + 1 + 1 = (k' + 1) + 1 from rfl, hstep (k' + 1)]
          exact hit
        · rw [hstep (k' + 1)]
          exact hcond
        · intro j hj
          cases j with
          | zero =>
            intro hcj
            apply hc
            simpa [Function.iterate_one, ballStep] using hcj
          | succ j' =>
            rw [hstep (j' + 1)]
            exact hfirst j' (by omega)

/-- C4: whenever the Controller impact predictor's forward integration finds a
crossing, the returned impact point and time-to-impact come from the first
integration step (index `k`, time `k * 0.01`) whose integrated ball state is
inside the spherical reachable region and above the floor; the index is below
the 300-step (3 s / 0.01 s) horizon, so every returned time-to-impact of a
found crossing is strictly less than 3 s. -/
theorem C4_impact_first_entry (sqrtK : K → K) (p0 pd0 : Vec3 K) (R0 : Mat3 K)
    (w0 : Vec3 K) (bp bv gp : Vec3 K) (k : Nat) (pimp vimp : Vec3 K)
    (h : (ballRun sqrtK (1 / 100) gravC 300 bp bv).1 = some (k, pimp, vimp)) :
    (compute_impact_conditionsC sqrtK p0 pd0 R0 w0 bp bv gp).p = pimp ∧
    (compute_impact_conditionsC sqrtK p0 pd0 R0 w0 bp bv gp).t
      = (k : K) * (1 / 100) ∧
    k < 300 ∧
    (compute_impact_conditionsC sqrtK p0 pd0 R0 w0 bp bv gp).t < 3 ∧
    (pimp, vimp) = (ballStep (1 / 100) gravC)^[k + 1] (bp, bv) ∧
    ballCond sqrtK ((ballStep (1 / 100) gravC)^[k + 1] (bp, bv)) ∧
    ∀ j < k, ¬ ballCond sqrtK ((ballStep (1 / 100) gravC)^[j + 1] (bp, bv)) := by
  obtain ⟨hk, hit, hcond, hfirst⟩ :=
    ballRun_some_char sqrtK (1 / 100) gravC 300 k bp bv pimp vimp h
  have hp : (compute_impact_conditionsC sqrtK p0 pd0 R0 w0 bp bv gp).p = pimp := by
    simp only [compute_impact_conditionsC, h]
  have ht : (compute_impact_conditionsC sqrtK p0 pd0 R0 w0 bp bv gp).t
      = (k : K) * (1 / 100) := by
    simp only [compute_impact_conditionsC, h]
  have hcast : (k : K) ≤ 299 := by
    have : (k : K) ≤ (299 : ℕ) := Nat.cast_le.mpr (by omega)
    simpa using this
  have ht3 : (k : K) * (1 / 100) < 3 := by nlinarith
  exact ⟨hp, ht, hk, by rw [ht]; exact ht3, hit, hcond, hfirst⟩

/-- Witness for C4: a ball dropped from `(0, 0, 0.9)` at `-20 m/s` enters the
reachable sphere at the very first integration step; the predictor returns
that step's ball position and a time-to-impact below 3 s. -/
theorem C4_impact_first_entry_witness :
    (ballRun (K := ℚ) id (1 / 100) gravC 300 ⟨0, 0, 9 / 10⟩ ⟨0, 0, -20⟩).1
      = some (0, ⟨0, 0, 7 / 10⟩, ⟨0, 0, -(100491 / 5000)⟩) ∧
    (compute_impact_conditionsC (K := ℚ) id 0 0 idM3 0
        ⟨0, 0, 9 / 10⟩ ⟨0, 0, -20⟩ 0).p = ⟨0, 0, 7 / 10⟩ ∧
    (compute_impact_conditionsC (K := ℚ) id 0 0 idM3 0
        ⟨0, 0, 9 / 10⟩ ⟨0, 0, -20⟩ 0).t < 3 := by
  have hrun : (ballRun (K := ℚ) id (1 / 100) gravC 300
      ⟨0, 0, 9 / 10⟩ ⟨0, 0, -20⟩).1
      = some (0, ⟨0, 0, 7 / 10⟩, ⟨0, 0, -(100491 / 5000)⟩) := by
    show (ballRun (K := ℚ) id (1 / 100) gravC (299 + 1)
      ⟨0, 0, 9 / 10⟩ ⟨0, 0, -20⟩).1 = _
    rw [ballRun]
    rw [if_pos]
    · norm_num [v3add_def, v3smul_def, gravC]
    · constructor
      · norm_num [v3add_def, v3smul_def, v3sub_def, taskSpaceP, sqnorm3]
      · norm_num [v3add_def, v3smul_def]
  have h := C4_impact_first_entry (K := ℚ) id 0 0 idM3 0
    ⟨0, 0, 9 / 10⟩ ⟨0, 0, -20⟩ 0 0 ⟨0, 0, 7 / 10⟩ ⟨0, 0, -(100491 / 5000)⟩ hrun
  exact ⟨hrun, h.1, h.2.2.2.1⟩

/-- C5: if the Controller predictor's 300-step horizon is exhausted with no
entry into the reachable sphere, `compute_impact_conditions` does not raise:
it returns the engine's rest pose (idle position `p0` and idle orientation
`R0` from `__init__`) with zero linear and zero angular velocity as a
synthetic impact condition (with time-to-impact 1), so the engine plans
toward idle. -/
theorem C5_impact_not_found_rest_pose (F : Vec7 K → FkinOut K) (piK : K)
    (sqrtK : K → K) (bp bv gp : Vec3 K)
    (h : (ballRun sqrtK (1 / 100) gravC 300 bp bv).1 = none) :
    compute_impact_conditionsC sqrtK (initC F piK).p0 (initC F piK).pd0
        (initC F piK).R0 (initC F piK).w0 bp bv gp
      = ⟨(initC F piK).p0, 0, (initC F piK).R0, 0, 1,
         (ballRun sqrtK (1 / 100) gravC 300 bp bv).2.1,
         (ballRun sqrtK (1 / 100) gravC 300 bp bv).2.2⟩ := by
  simp only [compute_impact_conditionsC, h]
  rfl

/-- A ball whose x-coordinate stays at least 1 (no x-velocity, no x-gravity)
never enters the reachable sphere, under the identity square-root oracle. -/
theorem ballRun_const_x_none (dtB : K) (g : Vec3 K) (hgx : g.x = 0) :
    ∀ (n : Nat) (p v : Vec3 K), v.x = 0 → 1 ≤ p.x →
      (ballRun id dtB g n p v).1 = none := by
  intro n
  induction n with
  | zero =>
    intro p v hv hp
    rfl
  | succ n ih =>
    intro p v hv hp
    have hx : (p + dtB • v).x = p.x := by
      simp [v3add_def, v3smul_def, hv]
    have hcond : ¬ (id (sqnorm3 ((p + dtB • v) - taskSpaceP)) < 27 / 100 ∧
        0 < (p + dtB • v).z) := by
      rintro ⟨hlt, -⟩
      have hsq : 1 ≤ sqnorm3 ((p + dtB • v) - taskSpaceP) := by
        have hx1 : 1 ≤ ((p + dtB • v) - taskSpaceP).x := by
          simp only [v3sub_def, taskSpaceP]
          simp [hx]
          linarith
        simp only [sqnorm3]
        nlinarith [sq_nonneg (((p + dtB • v) - taskSpaceP).y),
          sq_nonneg (((p + dtB • v) - taskSpaceP).z)]
      simp only [id] at hlt
      linarith
    simp only [ballRun, if_neg hcond]
    rw [ih (p + dtB • v) (v + dtB • g) (by simp [v3add_def, v3smul_def, hv, hgx])
      (by rw [hx]; exact hp)]
    rfl

/-- Witness for C5: ball at `(10, 0, 5)` with zero velocity never reaches the
sphere within the horizon; the predictor returns the rest pose with zero
velocities. -/
theorem C5_impact_not_found_rest_pose_witness :
    (ballRun (K := ℚ) id (1 / 100) gravC 300 ⟨10, 0, 5⟩ 0).1 = none ∧
    compute_impact_conditionsC (K := ℚ) id
        (initC (fkinConst 0 idM3) 3).p0 (initC (fkinConst 0 idM3) 3).pd0
        (initC (fkinConst 0 idM3) 3).R0 (initC (fkinConst 0 idM3) 3).w0
        ⟨10, 0, 5⟩ 0 0
      = ⟨(initC (fkinConst 0 idM3) 3).p0, 0, (initC (fkinConst 0 idM3) 3).R0,
         0, 1, (ballRun (K := ℚ) id (1 / 100) gravC 300 ⟨10, 0, 5⟩ 0).2.1,
         (ballRun (K := ℚ) id (1 / 100) gravC 300 ⟨10, 0, 5⟩ 0).2.2⟩ := by
  have hrun : (ballRun (K := ℚ) id (1 / 100) gravC 300 ⟨10, 0, 5⟩ 0).1 = none :=
    ballRun_const_x_none (1 / 100) gravC rfl 300 ⟨10, 0, 5⟩ 0 rfl (by norm_num)
  exact ⟨hrun,
    C5_impact_not_found_rest_pose (fkinConst 0 idM3) 3 id ⟨10, 0, 5⟩ 0 0 hrun⟩

/-- The final ball-velocity array value never increases in `z` across the
integration loop. -/
theorem ballRun_final_vz_le (sqrtK : K → K) (dtB : K) (g : Vec3 K)
    (hdg : dtB * g.z ≤ 0) :
    ∀ (n : Nat) (p v : Vec3 K), (ballRun sqrtK dtB g n p v).2.2.z ≤ v.z := by
  intro n
  induction n with
  | zero =>
    intro p v
    exact le_refl _
  | succ n ih =>
    intro p v
    by_cases hc : sqrtK (sqnorm3 ((p + dtB • v) - taskSpaceP)) < 27 / 100 ∧
        0 < (p + dtB • v).z
    · simp only [ballRun, if_pos hc]
      show v.z + dtB * g.z ≤ v.z
      linarith
    · simp only [ballRun, if_neg hc]
      calc (ballRun sqrtK dtB g n (p + dtB • v) (v + dtB • g)).2.2.z
          ≤ (v + dtB • g).z := ih _ _
        _ ≤ v.z := by
          show v.z + dtB * g.z ≤ v.z
          linarith

/-- With at least one step of fuel the final ball-velocity array value
strictly decreases in `z`: at least one Euler update always executes. -/
theorem ballRun_final_vz_lt (sqrtK : K → K) (dtB : K) (g : Vec3 K)
    (hdg : dtB * g.z < 0) (n : Nat) (p v : Vec3 K) :
    (ballRun sqrtK dtB g (n + 1) p v).2.2.z < v.z := by
  by_cases hc : sqrtK (sqnorm3 ((p + dtB • v) - taskSpaceP)) < 27 / 100 ∧
      0 < (p + dtB • v).z
  · simp only [ballRun, if_pos hc]
    show v.z + dtB * g.z < v.z
    linarith
  · simp only [ballRun, if_neg hc]
    calc (ballRun sqrtK dtB g n (p + dtB • v) (v + dtB • g)).2.2.z
        ≤ (v + dtB • g).z := ballRun_final_vz_le sqrtK dtB g hdg.le _ _ _
      _ < v.z := by
        show v.z + dtB * g.z < v.z
        linarith

/-- The predictor's final ball-velocity array equals the loop's, in both
match arms. -/
theorem computeImpactC_bv (sqrtK : K → K) (p0 pd0 : Vec3 K) (R0 : Mat3 K)
    (w0 bp bv gp : Vec3 K) :
    (compute_impact_conditionsC sqrtK p0 pd0 R0 w0 bp bv gp).bv
      = (ballRun sqrtK (1 / 100) gravC 300 bp bv).2.2 := by
  rcases hr : (ballRun sqrtK (1 / 100) gravC 300 bp bv).1 with _ | u
  · simp only [compute_impact_conditionsC, hr]
  · obtain ⟨k, pimp, vimp⟩ := u
    simp only [compute_impact_conditionsC, hr]

/-- Same for the Trajectory predictor. -/
theorem computeImpactT_bv (sqrtK : K → K) (p0 pd0 : Vec3 K) (R0 : Mat3 K)
    (w0 bp bv gp : Vec3 K) :
    (compute_impact_conditionsT sqrtK p0 pd0 R0 w0 bp bv gp).bv
      = (ballRun sqrtK (1 / 200) gravT 600 bp bv).2.2 := by
  rcases hr : (ballRun sqrtK (1 / 200) gravT 600 bp bv).1 with _ | u
  · simp only [compute_impact_conditionsT, hr]
  · obtain ⟨k, pimp, vimp⟩ := u
    simp only [compute_impact_conditionsT, hr]

/-- C10: the impact predictors integrate directly on the caller's ball
arrays (embedded as explicit state passing): after every call the final
ball-velocity value is strictly below the observed one (gravity is applied at
least once before any exit), so the caller's observation arrays no longer
hold the originally observed ball state; and on every regenerated tick
`Controller.evaluate` hands exactly those mutated arrays back in `ballObs`. -/
theorem C10_predictor_mutates_ball_arrays :
    (∀ (sqrtK : K → K) (p0 pd0 : Vec3 K) (R0 : Mat3 K) (w0 bp bv gp : Vec3 K),
      (compute_impact_conditionsC sqrtK p0 pd0 R0 w0 bp bv gp).bv.z < bv.z) ∧
    (∀ (sqrtK : K → K) (p0 pd0 : Vec3 K) (R0 : Mat3 K) (w0 bp bv gp : Vec3 K),
      (compute_impact_conditionsT sqrtK p0 pd0 R0 w0 bp bv gp).bv.z < bv.z) ∧
    (∀ (F : Vec7 K → FkinOut K)
        (pinvFn : (Fin 7 → Fin 7 → K) → Fin 7 → Fin 7 → K) (sqrtK : K → K)
        (piK : K) (s : EngState K) (t dt : K) (bp bv gp : Vec3 K),
      (evaluateC F pinvFn sqrtK piK s t dt bp bv gp true).ballObs
        = ((compute_impact_conditionsC sqrtK s.p0 s.pd0 s.R0 s.w0 bp bv gp).bp,
           (compute_impact_conditionsC sqrtK s.p0 s.pd0 s.R0 s.w0 bp bv gp).bv)) := by
  refine ⟨?_, ?_, ?_⟩
  · intro sqrtK p0 pd0 R0 w0 bp bv gp
    rw [computeImpactC_bv]
    exact ballRun_final_vz_lt sqrtK (1 / 100) gravC (by norm_num [gravC]) 299 bp bv
  · intro sqrtK p0 pd0 R0 w0 bp bv gp
    rw [computeImpactT_bv]
    exact ballRun_final_vz_lt sqrtK (1 / 200) gravT (by norm_num [gravT]) 599 bp bv
  · intro F pinvFn sqrtK piK s t dt bp bv gp
    rcases hik : ikinC F pinvFn sqrtK piK s.q
        (compute_impact_conditionsC sqrtK s.p0 s.pd0 s.R0 s.w0 bp bv gp).p
        (compute_impact_conditionsC sqrtK s.p0 s.pd0 s.R0 s.w0 bp bv gp).pd
        (compute_impact_conditionsC sqrtK s.p0 s.pd0 s.R0 s.w0 bp bv gp).R
        (compute_impact_conditionsC sqrtK s.p0 s.pd0 s.R0 s.w0 bp bv gp).w
      with _ | u
    · simp only [evaluateC, if_pos, hik]
    · obtain ⟨qe, qde⟩ := u
      simp only [evaluateC, if_pos, hik]

/-- If `fkin` is constant and its constant task error fails the tolerance
test, the Controller Newton loop never converges (the error does not depend
on `q`). -/
theorem ikinLoopC_const_fail (F : Vec7 K → FkinOut K) (out : FkinOut K)
    (hF : ∀ q, F q = out)
    (pinvFn : (Fin 7 → Fin 7 → K) → Fin 7 → Fin 7 → K) (sqrtK : K → K)
    (pg : Vec3 K) (Rg : Mat3 K)
    (hbig : ¬ sqrtK (sqnorm6 (errC out pg Rg)) < 1 / 10 ^ 7) :
    ∀ (n : Nat) (q : Vec7 K), (ikinLoopC F pinvFn sqrtK pg Rg n q).1 = false := by
  intro n
  induction n with
  | zero =>
    intro q
    rfl
  | succ n ih =>
    intro q
    have hb : ¬ sqrtK (sqnorm6 (errC (F q) pg Rg)) < 1 / 10 ^ 7 := by
      rw [hF q]
      exact hbig
    simp only [ikinLoopC, if_neg hb]
    exact ih _

/-- Non-convergence of the full `Controller.ikin` under a constant,
far-off `fkin`. -/
theorem ikinC_const_fail (F : Vec7 K → FkinOut K) (out : FkinOut K)
    (hF : ∀ q, F q = out)
    (pinvFn : (Fin 7 → Fin 7 → K) → Fin 7 → Fin 7 → K) (sqrtK : K → K)
    (piK : K) (qinit : Vec7 K) (pg pd : Vec3 K) (Rg : Mat3 K) (w : Vec3 K)
    (hbig : ¬ sqrtK (sqnorm6 (errC out pg Rg)) < 1 / 10 ^ 7) :
    ikinC F pinvFn sqrtK piK qinit pg pd Rg w = none := by
  have h5 := ikinLoopC_const_fail F out hF pinvFn sqrtK pg Rg hbig 500 qinit
  simp [ikinC, h5]

/-- One squared entry is at most the squared norm of the stacked error. -/
theorem sq_le_sqnorm6 (e : Fin 6 → K) (i : Fin 6) : e i * e i ≤ sqnorm6 e := by
  unfold sqnorm6
  exact Finset.single_le_sum (fun j _ => mul_self_nonneg (e j))
    (Finset.mem_univ i)

/-- C6: on a tick carrying a regenerated event in which the IK solver fails
to converge, `Controller.evaluate` opens an idle-return segment — starting at
the current time from the current joint state, ending at the rest
configuration with zero joint velocity after the fixed 1.5 s idle duration —
and the tick's diagnostic string is non-empty. -/
theorem C6_convergence_failure_idle_fallback (F : Vec7 K → FkinOut K)
    (pinvFn : (Fin 7 → Fin 7 → K) → Fin 7 → Fin 7 → K) (sqrtK : K → K)
    (piK : K) (s : EngState K) (t dt : K) (bp bv gp : Vec3 K)
    (hfail : ikinC F pinvFn sqrtK piK s.q
        (compute_impact_conditionsC sqrtK s.p0 s.pd0 s.R0 s.w0 bp bv gp).p
        (compute_impact_conditionsC sqrtK s.p0 s.pd0 s.R0 s.w0 bp bv gp).pd
        (compute_impact_conditionsC sqrtK s.p0 s.pd0 s.R0 s.w0 bp bv gp).R
        (compute_impact_conditionsC sqrtK s.p0 s.pd0 s.R0 s.w0 bp bv gp).w
      = none)
    (hqd0 : s.qd0 = zero7) :
    (evaluateC F pinvFn sqrtK piK s t dt bp bv gp true).state.t_start = some t ∧
    (evaluateC F pinvFn sqrtK piK s t dt bp bv gp true).state.q_start
      = some s.q ∧
    (evaluateC F pinvFn sqrtK piK s t dt bp bv gp true).state.qd_start
      = some s.qd ∧
    (evaluateC F pinvFn sqrtK piK s t dt bp bv gp true).state.t_end
      = some (t + 3 / 2) ∧
    (evaluateC F pinvFn sqrtK piK s t dt bp bv gp true).state.q_end
      = some s.q0 ∧
    (evaluateC F pinvFn sqrtK piK s t dt bp bv gp true).state.qd_end
      = some zero7 ∧
    (evaluateC F pinvFn sqrtK piK s t dt bp bv gp true).msg ≠ "" := by
  have hnlt : ¬ (t + 3 / 2 < t) := by
    have : (0 : K) < 3 / 2 := by norm_num
    linarith
  simp only [evaluateC, hfail, set_idle, if_pos, hnlt, if_neg, hqd0]
  norm_num
  decide

/-- Witness for C6: on a regenerated tick at time 0 with a reachable ball but
an external kinematic chain stuck far from the goal, IK fails and the engine
opens the 1.5 s idle-return segment with a non-empty diagnostic. -/
theorem C6_convergence_failure_idle_fallback_witness :
    ikinC (fkinConst (K := ℚ) ⟨5, 5, 5⟩ idM3) pinvZ id 3 wState.q
        (compute_impact_conditionsC id wState.p0 wState.pd0 wState.R0 wState.w0
          ⟨0, 0, 9 / 10⟩ ⟨0, 0, -20⟩ 0).p
        (compute_impact_conditionsC id wState.p0 wState.pd0 wState.R0 wState.w0
          ⟨0, 0, 9 / 10⟩ ⟨0, 0, -20⟩ 0).pd
        (compute_impact_conditionsC id wState.p0 wState.pd0 wState.R0 wState.w0
          ⟨0, 0, 9 / 10⟩ ⟨0, 0, -20⟩ 0).R
        (compute_impact_conditionsC id wState.p0 wState.pd0 wState.R0 wState.w0
          ⟨0, 0, 9 / 10⟩ ⟨0, 0, -20⟩ 0).w = none ∧
    (evaluateC (fkinConst (K := ℚ) ⟨5, 5, 5⟩ idM3) pinvZ id 3 wState 0 (1 / 100)
        ⟨0, 0, 9 / 10⟩ ⟨0, 0, -20⟩ 0 true).state.t_end = some (0 + 3 / 2) ∧
    (evaluateC (fkinConst (K := ℚ) ⟨5, 5, 5⟩ idM3) pinvZ id 3 wState 0 (1 / 100)
        ⟨0, 0, 9 / 10⟩ ⟨0, 0, -20⟩ 0 true).state.qd_end = some zero7 ∧
    (evaluateC (fkinConst (K := ℚ) ⟨5, 5, 5⟩ idM3) pinvZ id 3 wState 0 (1 / 100)
        ⟨0, 0, 9 / 10⟩ ⟨0, 0, -20⟩ 0 true).msg ≠ "" := by
  have hrun : (ballRun (K := ℚ) id (1 / 100) gravC 300
      ⟨0, 0, 9 / 10⟩ ⟨0, 0, -20⟩).1
      = some (0, ⟨0, 0, 7 / 10⟩, ⟨0, 0, -(100491 / 5000)⟩) := by
    show (ballRun (K := ℚ) id (1 / 100) gravC (299 + 1)
      ⟨0, 0, 9 / 10⟩ ⟨0, 0, -20⟩).1 = _
    rw [ballRun]
    rw [if_pos]
    · norm_num [v3add_def, v3smul_def, gravC]
    · constructor
      · norm_num [v3add_def, v3smul_def, v3sub_def, taskSpaceP, sqnorm3]
      · norm_num [v3add_def, v3smul_def]
  have himp : (compute_impact_conditionsC (K := ℚ) id wState.p0 wState.pd0
      wState.R0 wState.w0 ⟨0, 0, 9 / 10⟩ ⟨0, 0, -20⟩ 0).p = ⟨0, 0, 7 / 10⟩ := by
    simp only [compute_impact_conditionsC, hrun]
  have he1 : errC (K := ℚ)
      ⟨⟨5, 5, 5⟩, idM3, fun _ => zero7, fun _ => zero7⟩
      (compute_impact_conditionsC id wState.p0 wState.pd0 wState.R0 wState.w0
        ⟨0, 0, 9 / 10⟩ ⟨0, 0, -20⟩ 0).p
      (compute_impact_conditionsC id wState.p0 wState.pd0 wState.R0 wState.w0
        ⟨0, 0, 9 / 10⟩ ⟨0, 0, -20⟩ 0).R 1 = -5 := by
    rw [himp]
    simp [errC, concat6, v3sub_def]
  have hbig : ¬ id (sqnorm6 (errC (K := ℚ)
      ⟨⟨5, 5, 5⟩, idM3, fun _ => zero7, fun _ => zero7⟩
      (compute_impact_conditionsC id wState.p0 wState.pd0 wState.R0 wState.w0
        ⟨0, 0, 9 / 10⟩ ⟨0, 0, -20⟩ 0).p
      (compute_impact_conditionsC id wState.p0 wState.pd0 wState.R0 wState.w0
        ⟨0, 0, 9 / 10⟩ ⟨0, 0, -20⟩ 0).R)) < 1 / 10 ^ 7 := by
    intro hlt
    have hone := sq_le_sqnorm6 (errC (K := ℚ)
      ⟨⟨5, 5, 5⟩, idM3, fun _ => zero7, fun _ => zero7⟩
      (compute_impact_conditionsC id wState.p0 wState.pd0 wState.R0 wState.w0
        ⟨0, 0, 9 / 10⟩ ⟨0, 0, -20⟩ 0).p
      (compute_impact_conditionsC id wState.p0 wState.pd0 wState.R0 wState.w0
        ⟨0, 0, 9 / 10⟩ ⟨0, 0, -20⟩ 0).R) 1
    rw [he1] at hone
    simp only [id] at hlt
    norm_num at hone
    linarith
  have hfail := ikinC_const_fail (fkinConst (K := ℚ) ⟨5, 5, 5⟩ idM3)
    ⟨⟨5, 5, 5⟩, idM3, fun _ => zero7, fun _ => zero7⟩ (fun _ => rfl)
    pinvZ id 3 wState.q
    (compute_impact_conditionsC id wState.p0 wState.pd0 wState.R0 wState.w0
      ⟨0, 0, 9 / 10⟩ ⟨0, 0, -20⟩ 0).p
    (compute_impact_conditionsC id wState.p0 wState.pd0 wState.R0 wState.w0
      ⟨0, 0, 9 / 10⟩ ⟨0, 0, -20⟩ 0).pd
    (compute_impact_conditionsC id wState.p0 wState.pd0 wState.R0 wState.w0
      ⟨0, 0, 9 / 10⟩ ⟨0, 0, -20⟩ 0).R
    (compute_impact_conditionsC id wState.p0 wState.pd0 wState.R0 wState.w0
      ⟨0, 0, 9 / 10⟩ ⟨0, 0, -20⟩ 0).w hbig
  have h := C6_convergence_failure_idle_fallback (fkinConst (K := ℚ) ⟨5, 5, 5⟩ idM3)
    pinvZ id 3 wState 0 (1 / 100) ⟨0, 0, 9 / 10⟩ ⟨0, 0, -20⟩ 0 hfail rfl
  exact ⟨hfail, h.2.2.2.1, h.2.2.2.2.2.1, h.2.2.2.2.2.2⟩

/-- If the very first error check passes, the Controller loop stops
immediately with the unchanged configuration. -/
theorem ikinLoopC_first_conv (F : Vec7 K → FkinOut K)
    (pinvFn : (Fin 7 → Fin 7 → K) → Fin 7 → Fin 7 → K) (sqrtK : K → K)
    (pg : Vec3 K) (Rg : Mat3 K) (n : Nat) (q : Vec7 K)
    (hc : sqrtK (sqnorm6 (errC (F q) pg Rg)) < 1 / 10 ^ 7) :
    ikinLoopC F pinvFn sqrtK pg Rg (n + 1) q = (true, q) := by
  simp only [ikinLoopC, if_pos hc]

/-- The damped weighted pseudo-inverse under the zero `np.linalg.pinv`
oracle is the zero matrix. -/
theorem jPinvC_pinvZ (jac : Fin 6 → Vec7 K) :
    jPinvC (K := K) pinvZ jac = fun _ _ => 0 := by
  funext i k
  simp [jPinvC, pinvZ]

/-- Multiplying by the zero 7×6 matrix gives the zero joint vector. -/
theorem mulMV67_zeroM (e : Fin 6 → K) :
    mulMV67 (fun _ _ => (0 : K)) e = zero7 := by
  funext i
  simp [mulMV67, zero7]

/-- `Controller.ikin` under a constant `fkin` whose error already satisfies
the tolerance: immediate convergence at the initial configuration, wrapped,
with zero joint velocity under the zero pseudo-inverse oracle. -/
theorem ikinC_zero_err (F : Vec7 K → FkinOut K) (out : FkinOut K)
    (hF : ∀ q, F q = out) (sqrtK : K → K) (piK : K) (qinit : Vec7 K)
    (pg pd : Vec3 K) (Rg : Mat3 K) (w : Vec3 K)
    (hc : sqrtK (sqnorm6 (errC out pg Rg)) < 1 / 10 ^ 7) :
    ikinC F pinvZ sqrtK piK qinit pg pd Rg w
      = some (wrap_q piK qinit, zero7) := by
  have hc' : sqrtK (sqnorm6 (errC (F qinit) pg Rg)) < 1 / 10 ^ 7 := by
    rw [hF]
    exact hc
  have hl : ikinLoopC F pinvZ sqrtK pg Rg 500 qinit = (true, qinit) :=
    ikinLoopC_first_conv F pinvZ sqrtK pg Rg 499 qinit hc'
  simp only [ikinC, hl, jPinvC_pinvZ, mulMV67_zeroM, if_true]

/-- The cross product of a vector with itself vanishes. -/
theorem cross3_self (v : Vec3 K) : cross3 v v = ⟨0, 0, 0⟩ := by
  unfold cross3
  congr 1 <;> ring

/-- Subtracting a 3-vector from itself gives zero. -/
theorem v3_sub_self (v : Vec3 K) : v - v = ⟨0, 0, 0⟩ := by
  rw [v3sub_def]
  congr 1 <;> ring

/-- Scaling the zero 3-vector gives zero. -/
theorem v3_smul_zero (c : K) : c • (⟨0, 0, 0⟩ : Vec3 K) = ⟨0, 0, 0⟩ := by
  rw [v3smul_def]
  congr 1 <;> ring

/-- Every entry of the stacked zero 6-vector is zero. -/
theorem concat6_zero_apply (i : Fin 6) :
    concat6 (⟨0, 0, 0⟩ : Vec3 K) ⟨0, 0, 0⟩ i = 0 := by
  fin_cases i <;> exact rfl

/-- The goal-matched constant chain has exactly zero stacked task error. -/
theorem errC_fkinConst_self (p : Vec3 K) (R : Mat3 K) (q : Vec7 K) :
    sqnorm6 (errC (fkinConst p R q) p R) = 0 := by
  have he : errC (fkinConst p R q) p R = concat6 ⟨0, 0, 0⟩ ⟨0, 0, 0⟩ := by
    show concat6 (p - p) ((1 / 2 : K) • cross3 R.cz R.cz) = _
    rw [v3_sub_self, cross3_self, v3_smul_zero]
  rw [he, sqnorm6]
  simp [concat6_zero_apply]

/-- C7 counterexample: with the external chain already at the goal, the
Controller IK succeeds from the initial configuration `q = (-4, …)` and
returns `wrap_q` of it, whose first entry is `-4 ∉ (-π, π]`. -/
theorem C7_wrap_counterexample :
    ikinC (fkinConst (K := ℝ) 0 idM3) pinvZ Real.sqrt Real.pi (fun _ => -4)
        0 0 idM3 0
      = some (wrap_q Real.pi (fun _ => -4), zero7) ∧
    wrap_q Real.pi (fun _ => (-4 : ℝ)) 0 = -4 ∧
    ¬ (-Real.pi < (-4 : ℝ) ∧ (-4 : ℝ) ≤ Real.pi) := by
  have hpi4 : (Real.pi : ℝ) < 3.15 := Real.pi_lt_315
  have hpi3 : (3 : ℝ) < Real.pi := Real.pi_gt_three
  refine ⟨?_, ?_, ?_⟩
  · apply ikinC_zero_err (fkinConst (K := ℝ) 0 idM3)
      (fkinConst (K := ℝ) 0 idM3 zero7) (fun _ => rfl)
    rw [show fkinConst (K := ℝ) 0 idM3 zero7 = fkinConst 0 idM3 (fun _ => -4)
      from rfl]
    rw [errC_fkinConst_self (K := ℝ) 0 idM3]
    rw [Real.sqrt_zero]
    norm_num
  · show wrap1 Real.pi (-4) = -4
    apply wrap1_eq_self_of_neg <;> linarith
  · rintro ⟨h, -⟩
    linarith

/-- C7 amended: whenever `Controller.ikin` succeeds, the returned joint
configuration is `wrap_q` of the converged one, so each entry lies in
`wrap_q`'s actual range `(-3π, π)` (not the claimed `(-π, π]`); entries whose
pre-wrap value is at least `-π` additionally land in `[-π, π)`. -/
theorem C7_ikin_result_range (F : Vec7 ℝ → FkinOut ℝ)
    (pinvFn : (Fin 7 → Fin 7 → ℝ) → Fin 7 → Fin 7 → ℝ) (sqrtK : ℝ → ℝ)
    (qinit : Vec7 ℝ) (pg pd : Vec3 ℝ) (Rg : Mat3 ℝ) (w : Vec3 ℝ)
    (q' qd' : Vec7 ℝ)
    (h : ikinC F pinvFn sqrtK Real.pi qinit pg pd Rg w = some (q', qd')) :
    ∀ i, (-(3 * Real.pi) < q' i ∧ q' i < Real.pi) ∧
      (-Real.pi ≤ (ikinLoopC F pinvFn sqrtK pg Rg 500 qinit).2 i →
        -Real.pi ≤ q' i ∧ q' i < Real.pi) := by
  by_cases hc : (ikinLoopC F pinvFn sqrtK pg Rg 500 qinit).1 = true
  · simp only [ikinC, hc, if_true, Option.some_inj] at h
    have hq : wrap_q Real.pi (ikinLoopC F pinvFn sqrtK pg Rg 500 qinit).2 = q' :=
      congrArg Prod.fst h
    intro i
    rw [← hq]
    refine ⟨wrap1_mem_range Real.pi _ Real.pi_pos, ?_⟩
    intro hge
    exact (wrap1_of_ge_neg_pi Real.pi _ Real.pi_pos hge).1
  · simp only [ikinC, Bool.not_eq_true] at hc
    simp only [ikinC, hc, Bool.false_eq_true, if_false] at h
    exact Option.noConfusion h

/-- Witness for C7 amended: a successful solve from the zero configuration
whose returned first entry indeed lies in `(-3π, π)`. -/
theorem C7_ikin_result_range_witness :
    ikinC (fkinConst (K := ℝ) 0 idM3) pinvZ Real.sqrt Real.pi zero7 0 0 idM3 0
      = some (wrap_q Real.pi zero7, zero7) ∧
    (-(3 * Real.pi) < wrap_q Real.pi zero7 0 ∧
      wrap_q Real.pi zero7 0 < Real.pi) := by
  have heval : ikinC (fkinConst (K := ℝ) 0 idM3) pinvZ Real.sqrt Real.pi zero7
      0 0 idM3 0 = some (wrap_q Real.pi zero7, zero7) := by
    apply ikinC_zero_err (fkinConst (K := ℝ) 0 idM3)
      (fkinConst (K := ℝ) 0 idM3 zero7) (fun _ => rfl)
    rw [errC_fkinConst_self (K := ℝ) 0 idM3, Real.sqrt_zero]
    norm_num
  exact ⟨heval, ((C7_ikin_result_range (fkinConst (K := ℝ) 0 idM3) pinvZ
    Real.sqrt zero7 0 0 idM3 0 (wrap_q Real.pi zero7) zero7 heval) 0).1⟩

theorem sqnorm3_nonneg (v : Vec3 K) : 0 ≤ sqnorm3 v := by
  unfold sqnorm3
  nlinarith [mul_self_nonneg v.x, mul_self_nonneg v.y, mul_self_nonneg v.z]

/-- A nonzero 3-vector has positive squared norm. -/
theorem sqnorm3_pos_of_ne (v : Vec3 K) (hv : v ≠ ⟨0, 0, 0⟩) :
    0 < sqnorm3 v := by
  rcases lt_or_eq_of_le (sqnorm3_nonneg v) with h | h
  · exact h
  · exfalso
    apply hv
    unfold sqnorm3 at h
    have hx : v.x * v.x = 0 := by
      nlinarith [mul_self_nonneg v.x, mul_self_nonneg v.y, mul_self_nonneg v.z]
    have hy : v.y * v.y = 0 := by
      nlinarith [mul_self_nonneg v.x, mul_self_nonneg v.y, mul_self_nonneg v.z]
    have hz : v.z * v.z = 0 := by
      nlinarith [mul_self_nonneg v.x, mul_self_nonneg v.y, mul_self_nonneg v.z]
    obtain ⟨a, b, c⟩ := v
    simp only [Vec3.mk.injEq]
    exact ⟨mul_self_eq_zero.mp hx, mul_self_eq_zero.mp hy, mul_self_eq_zero.mp hz⟩

theorem dot3_comm (a b : Vec3 K) : dot3 a b = dot3 b a := by
  unfold dot3
  ring

theorem dot3_self_eq_sqnorm3 (a : Vec3 K) : dot3 a a = sqnorm3 a := rfl

/-- `(a × b) · b = 0`. -/
theorem dot3_cross3_right (a b : Vec3 K) : dot3 (cross3 a b) b = 0 := by
  unfold dot3 cross3
  ring

/-- `(a × b) · a = 0`. -/
theorem dot3_cross3_left (a b : Vec3 K) : dot3 (cross3 a b) a = 0 := by
  unfold dot3 cross3
  ring

/-- Lagrange identity for the cross product. -/
theorem sqnorm3_cross3 (a b : Vec3 K) :
    sqnorm3 (cross3 a b) = sqnorm3 a * sqnorm3 b - dot3 a b * dot3 a b := by
  unfold sqnorm3 cross3 dot3
  ring

/-- Triple product expansion used for the determinant of the frame. -/
theorem dot3_cross3_triple (x z : Vec3 K) :
    dot3 (cross3 x (cross3 z x)) z
      = dot3 x x * dot3 z z - dot3 x z * dot3 x z := by
  unfold dot3 cross3
  ring

theorem dot3_divS (u : Vec3 K) (s : K) (w : Vec3 K) :
    dot3 (divS u s) w = dot3 u w / s := by
  unfold dot3 divS
  ring

/-- Normalization by the true square root yields a unit vector. -/
theorem sqnorm3_normalize3 (v : Vec3 ℝ) (hv : v ≠ ⟨0, 0, 0⟩) :
    sqnorm3 (normalize3 Real.sqrt v) = 1 := by
  have hpos := sqnorm3_pos_of_ne v hv
  have hs : Real.sqrt (sqnorm3 v) * Real.sqrt (sqnorm3 v) = sqnorm3 v :=
    Real.mul_self_sqrt (le_of_lt hpos)
  have hs0 : Real.sqrt (sqnorm3 v) ≠ 0 :=
    ne_of_gt (Real.sqrt_pos.mpr hpos)
  unfold normalize3 divS sqnorm3 at *
  field_simp

/-- The impact frame is right-handed orthonormal with contact-normal third
column `w` normalized, provided `w` is nonzero and not parallel to the
reference up-vector. -/
theorem impactFrame_props (w : Vec3 ℝ) (hw : w ≠ ⟨0, 0, 0⟩)
    (hx : cross3 yGuess (normalize3 Real.sqrt w) ≠ ⟨0, 0, 0⟩) :
    (impactFrame Real.sqrt w).cz = normalize3 Real.sqrt w ∧
    sqnorm3 (impactFrame Real.sqrt w).cx = 1 ∧
    sqnorm3 (impactFrame Real.sqrt w).cy = 1 ∧
    sqnorm3 (impactFrame Real.sqrt w).cz = 1 ∧
    dot3 (impactFrame Real.sqrt w).cx (impactFrame Real.sqrt w).cy = 0 ∧
    dot3 (impactFrame Real.sqrt w).cx (impactFrame Real.sqrt w).cz = 0 ∧
    dot3 (impactFrame Real.sqrt w).cy (impactFrame Real.sqrt w).cz = 0 ∧
    dot3 (cross3 (impactFrame Real.sqrt w).cx (impactFrame Real.sqrt w).cy)
      (impactFrame Real.sqrt w).cz = 1 := by
  have hcx : (impactFrame Real.sqrt w).cx
      = normalize3 Real.sqrt (cross3 yGuess (normalize3 Real.sqrt w)) := rfl
  have hcy : (impactFrame Real.sqrt w).cy
      = cross3 (normalize3 Real.sqrt w)
          (normalize3 Real.sqrt (cross3 yGuess (normalize3 Real.sqrt w))) := rfl
  have hcz : (impactFrame Real.sqrt w).cz = normalize3 Real.sqrt w := rfl
  set z := normalize3 Real.sqrt w with hz
  set u := cross3 yGuess z with hu
  set x := normalize3 Real.sqrt u with hxdef
  have hznorm : sqnorm3 z = 1 := sqnorm3_normalize3 w hw
  have hxnorm : sqnorm3 x = 1 := sqnorm3_normalize3 u hx
  have hxz : dot3 x z = 0 := by
    rw [hxdef]
    unfold normalize3
    rw [dot3_divS, hu, dot3_cross3_right]
    simp
  have hyx : dot3 x (cross3 z x) = 0 := by
    rw [dot3_comm]
    exact dot3_cross3_right z x
  have hyz : dot3 (cross3 z x) z = 0 := dot3_cross3_left z x
  have hynorm : sqnorm3 (cross3 z x) = 1 := by
    rw [sqnorm3_cross3, hznorm, hxnorm]
    rw [dot3_comm] at hxz
    rw [hxz]
    ring
  have hdet : dot3 (cross3 x (cross3 z x)) z = 1 := by
    rw [dot3_cross3_triple, dot3_self_eq_sqnorm3, dot3_self_eq_sqnorm3,
      hxnorm, hznorm, hxz]
    ring
  exact ⟨hcz, by rw [hcx]; exact hxnorm, by rw [hcy]; exact hynorm,
    by rw [hcz]; exact hznorm,
    by rw [hcx, hcy]; exact hyx, by rw [hcx, hcz]; exact hxz,
    by rw [hcy, hcz]; exact hyz, by rw [hcx, hcy, hcz]; exact hdet⟩

/-- C8 amended, Controller variant: for every found impact with nondegenerate
required velocity change (`Δv = pd_after_impact - pd_ball_impact` nonzero and
not parallel to the up-vector), the returned orientation is the right-handed
orthonormal impact frame whose contact-normal third column is the normalized
`Δv`, the secondary axis being built from the fixed up-vector `[0,1,0]`, and
the returned desired angular velocity is the zero vector. -/
theorem C8_paddle_frame (p0 pd0 : Vec3 ℝ) (R0 : Mat3 ℝ) (w0 bp bv gp : Vec3 ℝ)
    (k : Nat) (pimp vimp : Vec3 ℝ)
    (hfound : (ballRun Real.sqrt (1 / 100) gravC 300 bp bv).1
      = some (k, pimp, vimp))
    (hdv : pdAfterC gp pimp - vimp ≠ ⟨0, 0, 0⟩)
    (hx : cross3 yGuess (normalize3 Real.sqrt (pdAfterC gp pimp - vimp))
      ≠ ⟨0, 0, 0⟩) :
    (compute_impact_conditionsC Real.sqrt p0 pd0 R0 w0 bp bv gp).R
      = impactFrame Real.sqrt (pdAfterC gp pimp - vimp) ∧
    (compute_impact_conditionsC Real.sqrt p0 pd0 R0 w0 bp bv gp).R.cz
      = normalize3 Real.sqrt (pdAfterC gp pimp - vimp) ∧
    sqnorm3 (compute_impact_conditionsC Real.sqrt p0 pd0 R0 w0 bp bv gp).R.cx
      = 1 ∧
    sqnorm3 (compute_impact_conditionsC Real.sqrt p0 pd0 R0 w0 bp bv gp).R.cy
      = 1 ∧
    sqnorm3 (compute_impact_conditionsC Real.sqrt p0 pd0 R0 w0 bp bv gp).R.cz
      = 1 ∧
    dot3 (compute_impact_conditionsC Real.sqrt p0 pd0 R0 w0 bp bv gp).R.cx
      (compute_impact_conditionsC Real.sqrt p0 pd0 R0 w0 bp bv gp).R.cy = 0 ∧
    dot3 (compute_impact_conditionsC Real.sqrt p0 pd0 R0 w0 bp bv gp).R.cx
      (compute_impact_conditionsC Real.sqrt p0 pd0 R0 w0 bp bv gp).R.cz = 0 ∧
    dot3 (compute_impact_conditionsC Real.sqrt p0 pd0 R0 w0 bp bv gp).R.cy
      (compute_impact_conditionsC Real.sqrt p0 pd0 R0 w0 bp bv gp).R.cz = 0 ∧
    dot3 (cross3
        (compute_impact_conditionsC Real.sqrt p0 pd0 R0 w0 bp bv gp).R.cx
        (compute_impact_conditionsC Real.sqrt p0 pd0 R0 w0 bp bv gp).R.cy)
      (compute_impact_conditionsC Real.sqrt p0 pd0 R0 w0 bp bv gp).R.cz = 1 ∧
    (compute_impact_conditionsC Real.sqrt p0 pd0 R0 w0 bp bv gp).w = 0 := by
  have hR : (compute_impact_conditionsC Real.sqrt p0 pd0 R0 w0 bp bv gp).R
      = impactFrame Real.sqrt (pdAfterC gp pimp - vimp) := by
    simp only [compute_impact_conditionsC, hfound]
  have hw : (compute_impact_conditionsC Real.sqrt p0 pd0 R0 w0 bp bv gp).w
      = 0 := by
    simp only [compute_impact_conditionsC, hfound]
  obtain ⟨h1, h2, h3, h4, h5, h6, h7, h8⟩ :=
    impactFrame_props (pdAfterC gp pimp - vimp) hdv hx
  rw [hR]
  exact ⟨rfl, h1, h2, h3, h4, h5, h6, h7, h8, hw⟩

/-- C8 counterexample: the Trajectory variant aligns the paddle normal with
the reversed incoming velocity, not with the required velocity change.  For a
ball dropped straight down onto the sphere with an off-axis target, the
returned third column is `(0,0,1)` while the normalized required velocity
change (post-impact minus pre-impact) has a nonzero x-component. -/
theorem C8_frame_counterexample :
    (compute_impact_conditionsT Real.sqrt 0 0 idM3 0 ⟨0, 0, 9 / 10⟩
        ⟨0, 0, -20⟩ ⟨3 / 5, 0, 8 / 5⟩).R.cz = ⟨0, 0, 1⟩ ∧
    (compute_impact_conditionsT Real.sqrt 0 0 idM3 0 ⟨0, 0, 9 / 10⟩
        ⟨0, 0, -20⟩ ⟨3 / 5, 0, 8 / 5⟩).R.cz
      ≠ normalize3 Real.sqrt
          (pdAfterT Real.sqrt ⟨3 / 5, 0, 8 / 5⟩
              (compute_impact_conditionsT Real.sqrt 0 0 idM3 0 ⟨0, 0, 9 / 10⟩
                ⟨0, 0, -20⟩ ⟨3 / 5, 0, 8 / 5⟩).p
            - (compute_impact_conditionsT Real.sqrt 0 0 idM3 0 ⟨0, 0, 9 / 10⟩
                ⟨0, 0, -20⟩ ⟨3 / 5, 0, 8 / 5⟩).bv) := by
  have hrun : (ballRun Real.sqrt (1 / 200) gravT 600
      ⟨0, 0, 9 / 10⟩ ⟨0, 0, -20⟩).1
      = some (0, ⟨0, 0, 4 / 5⟩, ⟨0, 0, -(20049 / 1000)⟩) := by
    show (ballRun Real.sqrt (1 / 200) gravT (599 + 1)
      ⟨0, 0, 9 / 10⟩ ⟨0, 0, -20⟩).1 = _
    rw [ballRun]
    rw [if_pos]
    · norm_num [v3add_def, v3smul_def, gravT]
    · constructor
      · have hs : sqnorm3 (((⟨0, 0, 9 / 10⟩ : Vec3 ℝ)
            + (1 / 200 : ℝ) • ⟨0, 0, -20⟩) - taskSpaceP) = 1 / 25 := by
          norm_num [v3add_def, v3smul_def, v3sub_def, taskSpaceP, sqnorm3]
        rw [hs, show (1 / 25 : ℝ) = (1 / 5) ^ 2 by norm_num,
          Real.sqrt_sq (by norm_num : (0 : ℝ) ≤ 1 / 5)]
        norm_num
      · norm_num [v3add_def, v3smul_def]
  have hp : (compute_impact_conditionsT Real.sqrt 0 0 idM3 0 ⟨0, 0, 9 / 10⟩
      ⟨0, 0, -20⟩ ⟨3 / 5, 0, 8 / 5⟩).p = ⟨0, 0, 4 / 5⟩ := by
    simp only [compute_impact_conditionsT, hrun]
  have hbv : (compute_impact_conditionsT Real.sqrt 0 0 idM3 0 ⟨0, 0, 9 / 10⟩
      ⟨0, 0, -20⟩ ⟨3 / 5, 0, 8 / 5⟩).bv = ⟨0, 0, -(20049 / 1000)⟩ := by
    have hfin : (ballRun Real.sqrt (1 / 200) gravT 600
        ⟨0, 0, 9 / 10⟩ ⟨0, 0, -20⟩).2.2 = ⟨0, 0, -(20049 / 1000)⟩ := by
      show (ballRun Real.sqrt (1 / 200) gravT (599 + 1)
        ⟨0, 0, 9 / 10⟩ ⟨0, 0, -20⟩).2.2 = _
      rw [ballRun]
      rw [if_pos]
      · norm_num [v3add_def, v3smul_def, gravT]
      · constructor
        · have hs : sqnorm3 (((⟨0, 0, 9 / 10⟩ : Vec3 ℝ)
              + (1 / 200 : ℝ) • ⟨0, 0, -20⟩) - taskSpaceP) = 1 / 25 := by
            norm_num [v3add_def, v3smul_def, v3sub_def, taskSpaceP, sqnorm3]
          rw [hs, show (1 / 25 : ℝ) = (1 / 5) ^ 2 by norm_num,
            Real.sqrt_sq (by norm_num : (0 : ℝ) ≤ 1 / 5)]
          norm_num
        · norm_num [v3add_def, v3smul_def]
    rw [computeImpactT_bv, hfin]
  have hRcz : (compute_impact_conditionsT Real.sqrt 0 0 idM3 0 ⟨0, 0, 9 / 10⟩
      ⟨0, 0, -20⟩ ⟨3 / 5, 0, 8 / 5⟩).R.cz = ⟨0, 0, 1⟩ := by
    have hR : (compute_impact_conditionsT Real.sqrt 0 0 idM3 0 ⟨0, 0, 9 / 10⟩
        ⟨0, 0, -20⟩ ⟨3 / 5, 0, 8 / 5⟩).R
        = impactFrame Real.sqrt (-(⟨0, 0, -(20049 / 1000)⟩ : Vec3 ℝ)) := by
      simp only [compute_impact_conditionsT, hrun]
    rw [hR]
    show normalize3 Real.sqrt (-(⟨0, 0, -(20049 / 1000)⟩ : Vec3 ℝ)) = _
    have hn : sqnorm3 (-(⟨0, 0, -(20049 / 1000)⟩ : Vec3 ℝ))
        = (20049 / 1000) ^ 2 := by
      norm_num [v3neg_def, sqnorm3]
    unfold normalize3
    rw [hn, Real.sqrt_sq (by norm_num : (0 : ℝ) ≤ 20049 / 1000)]
    norm_num [v3neg_def, divS]
  have hpd : pdAfterT Real.sqrt (⟨3 / 5, 0, 8 / 5⟩ : Vec3 ℝ) ⟨0, 0, 4 / 5⟩
      = ⟨3, 0, 249 / 50⟩ := by
    have hdp : ((⟨3 / 5, 0, 8 / 5⟩ : Vec3 ℝ) - ⟨0, 0, 4 / 5⟩)
        = ⟨3 / 5, 0, 4 / 5⟩ := by
      norm_num [v3sub_def]
    have hs1 : sqnorm3 ((⟨3 / 5, 0, 4 / 5⟩ : Vec3 ℝ)) = 1 := by
      norm_num [sqnorm3]
    simp only [pdAfterT, hdp, hs1, Real.sqrt_one]
    norm_num [v3sub_def, v3smul_def, divS, gravT]
  constructor
  · exact hRcz
  · rw [hRcz, hp, hbv, hpd]
    have hdv : ((⟨3, 0, 249 / 50⟩ : Vec3 ℝ) - ⟨0, 0, -(20049 / 1000)⟩)
        = ⟨3, 0, 25029 / 1000⟩ := by
      norm_num [v3sub_def]
    rw [hdv]
    intro heq
    have hx := congrArg Vec3.x heq
    have hpos : 0 < sqnorm3 ((⟨3, 0, 25029 / 1000⟩ : Vec3 ℝ)) := by
      norm_num [sqnorm3]
    have hs0 : Real.sqrt (sqnorm3 ((⟨3, 0, 25029 / 1000⟩ : Vec3 ℝ))) ≠ 0 :=
      ne_of_gt (Real.sqrt_pos.mpr hpos)
    have : (0 : ℝ)
        = 3 / Real.sqrt (sqnorm3 ((⟨3, 0, 25029 / 1000⟩ : Vec3 ℝ))) := hx
    exact (div_ne_zero (by norm_num : (3 : ℝ) ≠ 0) hs0) this.symm

/-- Witness for C8 amended: ball dropped straight down, target off to the
side; the impact is found at the first step, the velocity change is nonzero
and not parallel to the up-vector, and the Controller frame's third column is
its normalization with zero angular velocity. -/
theorem C8_paddle_frame_witness :
    (ballRun Real.sqrt (1 / 100) gravC 300 ⟨0, 0, 9 / 10⟩ ⟨0, 0, -20⟩).1
      = some (0, ⟨0, 0, 7 / 10⟩, ⟨0, 0, -(100491 / 5000)⟩) ∧
    pdAfterC (⟨3 / 10, 0, 11 / 10⟩ : Vec3 ℝ) ⟨0, 0, 7 / 10⟩
        - ⟨0, 0, -(100491 / 5000)⟩ ≠ ⟨0, 0, 0⟩ ∧
    cross3 yGuess (normalize3 Real.sqrt
        (pdAfterC (⟨3 / 10, 0, 11 / 10⟩ : Vec3 ℝ) ⟨0, 0, 7 / 10⟩
          - ⟨0, 0, -(100491 / 5000)⟩)) ≠ ⟨0, 0, 0⟩ ∧
    (compute_impact_conditionsC Real.sqrt 0 0 idM3 0 ⟨0, 0, 9 / 10⟩
        ⟨0, 0, -20⟩ ⟨3 / 10, 0, 11 / 10⟩).R.cz
      = normalize3 Real.sqrt
          (pdAfterC (⟨3 / 10, 0, 11 / 10⟩ : Vec3 ℝ) ⟨0, 0, 7 / 10⟩
            - ⟨0, 0, -(100491 / 5000)⟩) ∧
    (compute_impact_conditionsC Real.sqrt 0 0 idM3 0 ⟨0, 0, 9 / 10⟩
        ⟨0, 0, -20⟩ ⟨3 / 10, 0, 11 / 10⟩).w = 0 := by
  have hfound : (ballRun Real.sqrt (1 / 100) gravC 300
      ⟨0, 0, 9 / 10⟩ ⟨0, 0, -20⟩).1
      = some (0, ⟨0, 0, 7 / 10⟩, ⟨0, 0, -(100491 / 5000)⟩) := by
    show (ballRun Real.sqrt (1 / 100) gravC (299 + 1)
      ⟨0, 0, 9 / 10⟩ ⟨0, 0, -20⟩).1 = _
    rw [ballRun]
    rw [if_pos]
    · norm_num [v3add_def, v3smul_def, gravC]
    · constructor
      · have hs : sqnorm3 (((⟨0, 0, 9 / 10⟩ : Vec3 ℝ)
            + (1 / 100 : ℝ) • ⟨0, 0, -20⟩) - taskSpaceP) = 1 / 100 := by
          norm_num [v3add_def, v3smul_def, v3sub_def, taskSpaceP, sqnorm3]
        rw [hs, show (1 / 100 : ℝ) = (1 / 10) ^ 2 by norm_num,
          Real.sqrt_sq (by norm_num : (0 : ℝ) ≤ 1 / 10)]
        norm_num
      · norm_num [v3add_def, v3smul_def]
  have hpda : pdAfterC (⟨3 / 10, 0, 11 / 10⟩ : Vec3 ℝ) ⟨0, 0, 7 / 10⟩
      = ⟨3 / 5, 0, 651 / 200⟩ := by
    unfold pdAfterC
    norm_num [v3sub_def, v3smul_def, divS, gravC]
  have hdvv : pdAfterC (⟨3 / 10, 0, 11 / 10⟩ : Vec3 ℝ) ⟨0, 0, 7 / 10⟩
      - ⟨0, 0, -(100491 / 5000)⟩ = ⟨3 / 5, 0, 58383 / 2500⟩ := by
    rw [hpda]
    norm_num [v3sub_def]
  have hpos : 0 < sqnorm3 ((⟨3 / 5, 0, 58383 / 2500⟩ : Vec3 ℝ)) := by
    norm_num [sqnorm3]
  have hs0 : Real.sqrt (sqnorm3 ((⟨3 / 5, 0, 58383 / 2500⟩ : Vec3 ℝ))) ≠ 0 :=
    ne_of_gt (Real.sqrt_pos.mpr hpos)
  have hdv : pdAfterC (⟨3 / 10, 0, 11 / 10⟩ : Vec3 ℝ) ⟨0, 0, 7 / 10⟩
      - ⟨0, 0, -(100491 / 5000)⟩ ≠ ⟨0, 0, 0⟩ := by
    rw [hdvv]
    intro h
    have hxc := congrArg Vec3.x h
    norm_num at hxc
  have hx : cross3 yGuess (normalize3 Real.sqrt
      (pdAfterC (⟨3 / 10, 0, 11 / 10⟩ : Vec3 ℝ) ⟨0, 0, 7 / 10⟩
        - ⟨0, 0, -(100491 / 5000)⟩)) ≠ ⟨0, 0, 0⟩ := by
    rw [hdvv]
    intro h
    have hzc := congrArg Vec3.z h
    simp only [cross3, yGuess, normalize3, divS] at hzc
    norm_num at hzc
    exact hs0 hzc
  have h := C8_paddle_frame 0 0 idM3 0 ⟨0, 0, 9 / 10⟩ ⟨0, 0, -20⟩
    ⟨3 / 10, 0, 11 / 10⟩ 0 ⟨0, 0, 7 / 10⟩ ⟨0, 0, -(100491 / 5000)⟩
    hfound hdv hx
  exact ⟨hfound, hdv, hx, h.2.1, h.2.2.2.2.2.2.2.2.2⟩

/-- The Controller predictor's time-to-impact is always in `[0, 3)`:
`k * 0.01` with `k < 300` for a found crossing, `1` otherwise. -/
theorem computeImpactC_t_bounds (sqrtK : K → K) (p0 pd0 : Vec3 K)
    (R0 : Mat3 K) (w0 bp bv gp : Vec3 K) :
    0 ≤ (compute_impact_conditionsC sqrtK p0 pd0 R0 w0 bp bv gp).t ∧
    (compute_impact_conditionsC sqrtK p0 pd0 R0 w0 bp bv gp).t < 3 := by
  rcases hr : (ballRun sqrtK (1 / 100) gravC 300 bp bv).1 with _ | u
  · simp only [compute_impact_conditionsC, hr]
    norm_num
  · obtain ⟨k, pimp, vimp⟩ := u
    have hk := (ballRun_some_char sqrtK (1 / 100) gravC 300 k bp bv pimp vimp hr).1
    simp only [compute_impact_conditionsC, hr]
    have hcast : (k : K) ≤ 299 := by
      have : (k : K) ≤ (299 : ℕ) := Nat.cast_le.mpr (by omega)
      simpa using this
    constructor
    · positivity
    · nlinarith

/-- C9 amended: every transition of `Controller.evaluate` either leaves all
six boundary fields of the active trajectory segment unchanged, or replaces
all six together ("wholesale") with a segment starting at the current time
from the current joint state whose end time is `t + d` with `d ≥ 0`: an
idle-return segment (`d = 1.5`, ending at the rest configuration) or a
tracking segment over the predicted time-to-impact (`d < 3`).  `t_end >
t_start` can fail only through `d = 0`, i.e. a predictor crossing at its
first integration step. -/
theorem C9_segment_wellformedness (F : Vec7 K → FkinOut K)
    (pinvFn : (Fin 7 → Fin 7 → K) → Fin 7 → Fin 7 → K) (sqrtK : K → K)
    (piK : K) (s : EngState K) (t dt : K) (bp bv gp : Vec3 K) (regen : Bool) :
    ((evaluateC F pinvFn sqrtK piK s t dt bp bv gp regen).state.t_start
        = s.t_start ∧
     (evaluateC F pinvFn sqrtK piK s t dt bp bv gp regen).state.q_start
        = s.q_start ∧
     (evaluateC F pinvFn sqrtK piK s t dt bp bv gp regen).state.qd_start
        = s.qd_start ∧
     (evaluateC F pinvFn sqrtK piK s t dt bp bv gp regen).state.t_end
        = s.t_end ∧
     (evaluateC F pinvFn sqrtK piK s t dt bp bv gp regen).state.q_end
        = s.q_end ∧
     (evaluateC F pinvFn sqrtK piK s t dt bp bv gp regen).state.qd_end
        = s.qd_end) ∨
    ((evaluateC F pinvFn sqrtK piK s t dt bp bv gp regen).state.t_start
        = some t ∧
     (evaluateC F pinvFn sqrtK piK s t dt bp bv gp regen).state.q_start
        = some s.q ∧
     (evaluateC F pinvFn sqrtK piK s t dt bp bv gp regen).state.qd_start
        = some s.qd ∧
     ∃ d : K, 0 ≤ d ∧
       (evaluateC F pinvFn sqrtK piK s t dt bp bv gp regen).state.t_end
          = some (t + d) ∧
       ((d = 3 / 2 ∧
         (evaluateC F pinvFn sqrtK piK s t dt bp bv gp regen).state.q_end
            = some s.q0 ∧
         (evaluateC F pinvFn sqrtK piK s t dt bp bv gp regen).state.qd_end
            = some s.qd0) ∨
        (d < 3 ∧ ∃ qe qde,
         (evaluateC F pinvFn sqrtK piK s t dt bp bv gp regen).state.q_end
            = some qe ∧
         (evaluateC F pinvFn sqrtK piK s t dt bp bv gp regen).state.qd_end
            = some qde))) := by
  obtain ⟨ht0, ht3⟩ := computeImpactC_t_bounds sqrtK s.p0 s.pd0 s.R0 s.w0 bp bv gp
  cases regen with
  | true =>
    right
    rcases hik : ikinC F pinvFn sqrtK piK s.q
        (compute_impact_conditionsC sqrtK s.p0 s.pd0 s.R0 s.w0 bp bv gp).p
        (compute_impact_conditionsC sqrtK s.p0 s.pd0 s.R0 s.w0 bp bv gp).pd
        (compute_impact_conditionsC sqrtK s.p0 s.pd0 s.R0 s.w0 bp bv gp).R
        (compute_impact_conditionsC sqrtK s.p0 s.pd0 s.R0 s.w0 bp bv gp).w
      with _ | u
    · have hnlt : ¬ (t + 3 / 2 < t) := by
        have : (0 : K) < 3 / 2 := by norm_num
        linarith
      refine ⟨?_, ?_, ?_, 3 / 2, by norm_num, ?_, Or.inl ⟨rfl, ?_, ?_⟩⟩ <;>
        simp only [evaluateC, hik, set_idle, hnlt, if_neg, if_pos] <;>
        try trivial
    · obtain ⟨qe, qde⟩ := u
      have hnlt : ¬ (t + (compute_impact_conditionsC sqrtK s.p0 s.pd0 s.R0
          s.w0 bp bv gp).t < t) := by
        linarith
      refine ⟨?_, ?_, ?_,
        (compute_impact_conditionsC sqrtK s.p0 s.pd0 s.R0 s.w0 bp bv gp).t,
        ht0, ?_, Or.inr ⟨ht3, qe, qde, ?_, ?_⟩⟩ <;>
        simp only [evaluateC, hik, hnlt, if_neg, if_pos] <;>
        try trivial
  | false =>
    rcases hte : s.t_end with _ | te
    · right
      refine ⟨?_, ?_, ?_, 3 / 2, by norm_num, ?_, Or.inl ⟨rfl, ?_, ?_⟩⟩ <;>
        simp only [evaluateC, Bool.false_eq_true, if_false, hte, set_idle] <;>
        try trivial
    · by_cases hlt : te < t
      · right
        refine ⟨?_, ?_, ?_, 3 / 2, by norm_num, ?_, Or.inl ⟨rfl, ?_, ?_⟩⟩ <;>
          simp only [evaluateC, Bool.false_eq_true, if_false, hte, if_pos hlt,
            set_idle] <;>
          try trivial
      · left
        refine ⟨?_, ?_, ?_, ?_, ?_, ?_⟩ <;>
          simp only [evaluateC, Bool.false_eq_true, if_false, hte,
            if_neg hlt] <;>
          try rw [hte]

/-- The stacked zero 6-vector has zero squared norm. -/
theorem sqnorm6_concat6_zero :
    sqnorm6 (concat6 (⟨0, 0, 0⟩ : Vec3 K) ⟨0, 0, 0⟩) = 0 := by
  rw [sqnorm6]
  simp [concat6_zero_apply]

/-- Fixture: a fresh engine state (no active segment, zero joints, identity
rest orientation). -/
def wStateN : EngState K :=
  ⟨zero7, zero7, 0, 0, idM3, 0, zero7, zero7, 0, 0, idM3, 0,
   none, none, none, none, none, none⟩

/-- C9 counterexample: a ball regenerated already inside the reachable sphere
is found at the predictor's first integration step (`t_to_impact = 0`); with
the external chain already at the resulting goal the IK converges, and the
engine opens a tracking segment with `t_end = t_start` — violating the
claimed strict `t_end > t_start` invariant. -/
theorem C9_zero_duration_counterexample :
    (evaluateC (fkinConst (K := ℝ) ⟨0, 0, 7 / 10⟩ idM3) pinvZ Real.sqrt
        Real.pi wStateN 0 (1 / 100) ⟨0, 0, 9 / 10⟩ ⟨0, 0, -20⟩ ⟨0, 0, 7 / 10⟩
        true).state.t_start = some 0 ∧
    (evaluateC (fkinConst (K := ℝ) ⟨0, 0, 7 / 10⟩ idM3) pinvZ Real.sqrt
        Real.pi wStateN 0 (1 / 100) ⟨0, 0, 9 / 10⟩ ⟨0, 0, -20⟩ ⟨0, 0, 7 / 10⟩
        true).state.t_end = some 0 := by
  have hfound : (ballRun Real.sqrt (1 / 100) gravC 300
      ⟨0, 0, 9 / 10⟩ ⟨0, 0, -20⟩).1
      = some (0, ⟨0, 0, 7 / 10⟩, ⟨0, 0, -(100491 / 5000)⟩) := by
    show (ballRun Real.sqrt (1 / 100) gravC (299 + 1)
      ⟨0, 0, 9 / 10⟩ ⟨0, 0, -20⟩).1 = _
    rw [ballRun]
    rw [if_pos]
    · norm_num [v3add_def, v3smul_def, gravC]
    · constructor
      · have hs : sqnorm3 (((⟨0, 0, 9 / 10⟩ : Vec3 ℝ)
            + (1 / 100 : ℝ) • ⟨0, 0, -20⟩) - taskSpaceP) = 1 / 100 := by
          norm_num [v3add_def, v3smul_def, v3sub_def, taskSpaceP, sqnorm3]
        rw [hs, show (1 / 100 : ℝ) = (1 / 10) ^ 2 by norm_num,
          Real.sqrt_sq (by norm_num : (0 : ℝ) ≤ 1 / 10)]
        norm_num
      · norm_num [v3add_def, v3smul_def]
  have himp_p : (compute_impact_conditionsC Real.sqrt wStateN.p0 wStateN.pd0
      wStateN.R0 wStateN.w0 ⟨0, 0, 9 / 10⟩ ⟨0, 0, -20⟩ ⟨0, 0, 7 / 10⟩).p
      = ⟨0, 0, 7 / 10⟩ := by
    simp only [compute_impact_conditionsC, hfound]
  have himpt : (compute_impact_conditionsC Real.sqrt wStateN.p0 wStateN.pd0
      wStateN.R0 wStateN.w0 ⟨0, 0, 9 / 10⟩ ⟨0, 0, -20⟩ ⟨0, 0, 7 / 10⟩).t
      = 0 := by
    simp only [compute_impact_conditionsC, hfound]
    norm_num
  have hpda : pdAfterC (⟨0, 0, 7 / 10⟩ : Vec3 ℝ) ⟨0, 0, 7 / 10⟩
      = ⟨0, 0, 491 / 200⟩ := by
    unfold pdAfterC
    norm_num [v3sub_def, v3smul_def, divS, gravC]
  have hRcz : (compute_impact_conditionsC Real.sqrt wStateN.p0 wStateN.pd0
      wStateN.R0 wStateN.w0 ⟨0, 0, 9 / 10⟩ ⟨0, 0, -20⟩ ⟨0, 0, 7 / 10⟩).R.cz
      = ⟨0, 0, 1⟩ := by
    have hR : (compute_impact_conditionsC Real.sqrt wStateN.p0 wStateN.pd0
        wStateN.R0 wStateN.w0 ⟨0, 0, 9 / 10⟩ ⟨0, 0, -20⟩ ⟨0, 0, 7 / 10⟩).R
        = impactFrame Real.sqrt
            (pdAfterC (⟨0, 0, 7 / 10⟩ : Vec3 ℝ) ⟨0, 0, 7 / 10⟩
              - ⟨0, 0, -(100491 / 5000)⟩) := by
      simp only [compute_impact_conditionsC, hfound]
    rw [hR]
    have hdv : pdAfterC (⟨0, 0, 7 / 10⟩ : Vec3 ℝ) ⟨0, 0, 7 / 10⟩
        - ⟨0, 0, -(100491 / 5000)⟩ = ⟨0, 0, 56383 / 2500⟩ := by
      rw [hpda]
      norm_num [v3sub_def]
    rw [hdv]
    show normalize3 Real.sqrt ((⟨0, 0, 56383 / 2500⟩ : Vec3 ℝ)) = _
    have hn : sqnorm3 ((⟨0, 0, 56383 / 2500⟩ : Vec3 ℝ))
        = (56383 / 2500) ^ 2 := by
      norm_num [sqnorm3]
    unfold normalize3
    rw [hn, Real.sqrt_sq (by norm_num : (0 : ℝ) ≤ 56383 / 2500)]
    norm_num [divS]
  have he : errC (fkinConst (K := ℝ) ⟨0, 0, 7 / 10⟩ idM3 zero7)
      (compute_impact_conditionsC Real.sqrt wStateN.p0 wStateN.pd0
        wStateN.R0 wStateN.w0 ⟨0, 0, 9 / 10⟩ ⟨0, 0, -20⟩ ⟨0, 0, 7 / 10⟩).p
      (compute_impact_conditionsC Real.sqrt wStateN.p0 wStateN.pd0
        wStateN.R0 wStateN.w0 ⟨0, 0, 9 / 10⟩ ⟨0, 0, -20⟩ ⟨0, 0, 7 / 10⟩).R
      = concat6 ⟨0, 0, 0⟩ ⟨0, 0, 0⟩ := by
    show concat6
      ((compute_impact_conditionsC Real.sqrt wStateN.p0 wStateN.pd0
        wStateN.R0 wStateN.w0 ⟨0, 0, 9 / 10⟩ ⟨0, 0, -20⟩ ⟨0, 0, 7 / 10⟩).p
        - ⟨0, 0, 7 / 10⟩)
      ((1 / 2 : ℝ) • cross3 (idM3 (K := ℝ)).cz
        (compute_impact_conditionsC Real.sqrt wStateN.p0 wStateN.pd0
          wStateN.R0 wStateN.w0 ⟨0, 0, 9 / 10⟩ ⟨0, 0, -20⟩
          ⟨0, 0, 7 / 10⟩).R.cz) = _
    rw [himp_p, hRcz, v3_sub_self,
      show (idM3 (K := ℝ)).cz = ⟨0, 0, 1⟩ from rfl, cross3_self, v3_smul_zero]
  have hik : ikinC (fkinConst (K := ℝ) ⟨0, 0, 7 / 10⟩ idM3) pinvZ Real.sqrt
      Real.pi wStateN.q
      (compute_impact_conditionsC Real.sqrt wStateN.p0 wStateN.pd0
        wStateN.R0 wStateN.w0 ⟨0, 0, 9 / 10⟩ ⟨0, 0, -20⟩ ⟨0, 0, 7 / 10⟩).p
      (compute_impact_conditionsC Real.sqrt wStateN.p0 wStateN.pd0
        wStateN.R0 wStateN.w0 ⟨0, 0, 9 / 10⟩ ⟨0, 0, -20⟩ ⟨0, 0, 7 / 10⟩).pd
      (compute_impact_conditionsC Real.sqrt wStateN.p0 wStateN.pd0
        wStateN.R0 wStateN.w0 ⟨0, 0, 9 / 10⟩ ⟨0, 0, -20⟩ ⟨0, 0, 7 / 10⟩).R
      (compute_impact_conditionsC Real.sqrt wStateN.p0 wStateN.pd0
        wStateN.R0 wStateN.w0 ⟨0, 0, 9 / 10⟩ ⟨0, 0, -20⟩ ⟨0, 0, 7 / 10⟩).w
      = some (wrap_q Real.pi wStateN.q, zero7) := by
    apply ikinC_zero_err (fkinConst (K := ℝ) ⟨0, 0, 7 / 10⟩ idM3)
      (fkinConst (K := ℝ) ⟨0, 0, 7 / 10⟩ idM3 zero7) (fun _ => rfl)
    rw [he, sqnorm6_concat6_zero, Real.sqrt_zero]
    norm_num
  have hnlt : ¬ ((0 : ℝ) + (compute_impact_conditionsC Real.sqrt wStateN.p0
      wStateN.pd0 wStateN.R0 wStateN.w0 ⟨0, 0, 9 / 10⟩ ⟨0, 0, -20⟩
      ⟨0, 0, 7 / 10⟩).t < 0) := by
    rw [himpt]
    norm_num
  constructor
  · simp only [evaluateC, hik, if_neg hnlt, if_pos]
  · simp only [evaluateC, hik, if_neg hnlt, if_pos]
    rw [himpt]
    norm_num

/-- Fixture: the zero `weighted_pinv` oracle used by witnesses. -/
def wpinvZ : WPinv K := fun _ _ _ => 0

/-- `Trajectory.evaluate`: like the Controller tick, but the expiry check is
an `elif` (skipped on a regenerated tick), the solver is `ikin_q_qd` with the
Trajectory predictor, the failure message is the source literal (the
per-iteration formatting lines are elided, and the success branch emits no
message), and the blend runs on the literal boundary configurations — no
`wrap_q` is applied to the joint delta. -/
def evaluateT (F : Vec7 K → FkinOut K) (wpinv : WPinv K) (sqrtK : K → K)
    (s : EngState K) (t dt : K) (ball_pos ball_vel goal_pos : Vec3 K)
    (regenerated : Bool) : EvalOut K :=
  let step1 : EngState K × String × (Vec3 K × Vec3 K) :=
    if regenerated then
      let imp := compute_impact_conditionsT sqrtK s.p0 s.pd0 s.R0 s.w0
        ball_pos ball_vel goal_pos
      let s1 := { s with t_start := some t, q_start := some s.q,
                         qd_start := some s.qd, t_end := some (t + imp.t) }
      match ikin_q_qd F wpinv sqrtK s.q imp.p imp.pd imp.R imp.w with
      | (some (qe, qde), _) =>
        ({ s1 with q_end := some qe, qd_end := some qde }, "", (imp.bp, imp.bv))
      | (none, _) =>
        (set_idle s1 t, "Failed to find a valid trajectory to the ball",
         (imp.bp, imp.bv))
    else (s, "", (ball_pos, ball_vel))
  let s1 := step1.1
  let s2 :=
    if regenerated then s1
    else
      match s1.t_end with
      | none => set_idle s1 t
      | some te => if te < t then set_idle s1 t else s1
  let ts := s2.t_start.getD 0
  let te := s2.t_end.getD 0
  let qs := s2.q_start.getD zero7
  let qds := s2.qd_start.getD zero7
  let qe := s2.q_end.getD zero7
  let qde := s2.qd_end.getD zero7
  let bl := spline (t - ts) (te - ts) qs qe qds qde
  let q := bl.1
  let qd := bl.2
  let o := F q
  let pd := mulJ3 o.Jv qd
  let w := mulJ3 o.Jw qd
  { state := { s2 with q := q, qd := qd, p := o.p, pd := pd, R := o.R, w := w },
    q := q, qd := qd, p := o.p, pd := pd, R := o.R, w := w,
    msg := step1.2.1, ballObs := step1.2.2 }

/-- At the end time of its active segment, `Controller.evaluate`'s joint
output is `q_start` plus the `wrap_q`-wrapped delta: the effective per-joint
delta the blend traverses is `wrap_q (q_end - q_start)`. -/
theorem evaluateC_q_at_tend (F : Vec7 K → FkinOut K)
    (pinvFn : (Fin 7 → Fin 7 → K) → Fin 7 → Fin 7 → K) (sqrtK : K → K)
    (piK : K) (s : EngState K) (t0 te dt : K) (bp bv gp : Vec3 K)
    (qs qds qe qde : Vec7 K)
    (h1 : s.t_start = some t0) (h2 : s.t_end = some te) (h3 : t0 < te)
    (h4 : s.q_start = some qs) (h5 : s.qd_start = some qds)
    (h6 : s.q_end = some qe) (h7 : s.qd_end = some qde) :
    (evaluateC F pinvFn sqrtK piK s te dt bp bv gp false).q
      = fun i => wrap1 piK (qe i - qs i) + qs i := by
  have hpos : (0 : K) < te - t0 := by linarith
  have hne : te - t0 ≠ 0 := ne_of_gt hpos
  have hnlt : ¬ te < te := lt_irrefl te
  unfold evaluateC
  simp only [Bool.false_eq_true, if_false, h1, h2, h4, h5, h6, h7, hnlt,
    if_neg, Option.getD_some]
  funext i
  rw [spline_at_T (te - t0) _ _ _ _ hne]
  exact rfl

/-- At the end time of its active segment, `Trajectory.evaluate`'s joint
output is exactly `q_end`: the blend traverses the literal un-wrapped
per-joint delta `q_end - q_start`. -/
theorem evaluateT_q_at_tend (F : Vec7 K → FkinOut K) (wpinv : WPinv K)
    (sqrtK : K → K) (s : EngState K) (t0 te dt : K) (bp bv gp : Vec3 K)
    (qs qds qe qde : Vec7 K)
    (h1 : s.t_start = some t0) (h2 : s.t_end = some te) (h3 : t0 < te)
    (h4 : s.q_start = some qs) (h5 : s.qd_start = some qds)
    (h6 : s.q_end = some qe) (h7 : s.qd_end = some qde) :
    (evaluateT F wpinv sqrtK s te dt bp bv gp false).q = qe := by
  have hpos : (0 : K) < te - t0 := by linarith
  have hne : te - t0 ≠ 0 := ne_of_gt hpos
  have hnlt : ¬ te < te := lt_irrefl te
  unfold evaluateT
  simp only [Bool.false_eq_true, if_false, h1, h2, h4, h5, h6, h7, hnlt,
    if_neg, Option.getD_some]
  funext i
  rw [spline_at_T (te - t0) _ _ _ _ hne]

/-- Fixture: a unit-duration active segment from `q_start = 0` to
`q_end = (-4, …)`, all boundary velocities zero. -/
def segWrap : EngState K :=
  ⟨zero7, zero7, 0, 0, idM3, 0, zero7, zero7, 0, 0, idM3, 0,
   some 0, some zero7, some zero7, some 1, some (fun _ => -4), some zero7⟩

/-- Fixture: a unit-duration active segment from `q_start = 0` to
`q_end = (7, …)`, all boundary velocities zero. -/
def segLit : EngState K :=
  ⟨zero7, zero7, 0, 0, idM3, 0, zero7, zero7, 0, 0, idM3, 0,
   some 0, some zero7, some zero7, some 1, some (fun _ => 7), some zero7⟩

/-- C2 counterexample: segments the engines actually track whose effective
per-joint delta is not wrapped into `(-π, π]`.  The Controller blend from
`q_start = 0` to `q_end = -4 ∈ (-3π, -π)` arrives at `-4` — `wrap_q` fixes
deltas below `-π` (fmod keeps the sign of `q_diff + π`), so the arm takes the
long way around; and the Trajectory blend from `0` to `7 > 2π` traverses the
literal delta `7`, which is not wrapped at all. -/
theorem C2_wrap_counterexample :
    (evaluateC (fkinConst (K := ℝ) 0 idM3) pinvZ Real.sqrt Real.pi segWrap
        1 (1 / 100) 0 0 0 false).q 0 = -4 ∧
    ¬ (-Real.pi < (-4 : ℝ) ∧ (-4 : ℝ) ≤ Real.pi) ∧
    (evaluateT (fkinConst (K := ℝ) 0 idM3) wpinvZ Real.sqrt segLit
        1 (1 / 100) 0 0 0 false).q 0 = 7 ∧
    ¬ (-Real.pi < (7 : ℝ) ∧ (7 : ℝ) ≤ Real.pi) := by
  have hpi4 : (Real.pi : ℝ) < 3.15 := Real.pi_lt_315
  have hpi3 : (3 : ℝ) < Real.pi := Real.pi_gt_three
  refine ⟨?_, ?_, ?_, ?_⟩
  · have hq := evaluateC_q_at_tend (fkinConst (K := ℝ) 0 idM3) pinvZ Real.sqrt
      Real.pi segWrap 0 1 (1 / 100) 0 0 0 zero7 zero7 (fun _ => -4) zero7
      rfl rfl (by norm_num) rfl rfl rfl rfl
    rw [hq]
    have hz : ((-4 : ℝ)) - zero7 0 = -4 := by
      simp [zero7]
    show wrap1 Real.pi ((-4 : ℝ) - zero7 0) + zero7 0 = -4
    rw [hz, wrap1_eq_self_of_neg Real.pi (-4) (by linarith) (by linarith)]
    simp [zero7]
  · rintro ⟨h, -⟩
    linarith
  · have hq := evaluateT_q_at_tend (fkinConst (K := ℝ) 0 idM3) wpinvZ
      Real.sqrt segLit 0 1 (1 / 100) 0 0 0 zero7 zero7 (fun _ => 7) zero7
      rfl rfl (by norm_num) rfl rfl rfl rfl
    rw [hq]
  · rintro ⟨-, h⟩
    linarith

/-- C2 amended: the effective per-joint delta traversed by the blend is
`wrap_q (q_end - q_start)` in `Controller.evaluate` and the literal
`q_end - q_start` in `Trajectory.evaluate` (witnessed by the joint output at
the segment's end time); for deltas at least `-π` — in particular the spec's
`0 → 3.0 rad` example — the Controller wrap is the congruent-mod-`2π`
representative in the half-open range `[-π, π)`, i.e. the shortest wrapped
path up to the boundary convention. -/
theorem C2_wrap_shortest_path :
    (∀ (F : Vec7 K → FkinOut K)
       (pinvFn : (Fin 7 → Fin 7 → K) → Fin 7 → Fin 7 → K) (sqrtK : K → K)
       (piK : K) (s : EngState K) (t0 te dt : K) (bp bv gp : Vec3 K)
       (qs qds qe qde : Vec7 K),
       s.t_start = some t0 → s.t_end = some te → t0 < te →
       s.q_start = some qs → s.qd_start = some qds →
       s.q_end = some qe → s.qd_end = some qde →
       (evaluateC F pinvFn sqrtK piK s te dt bp bv gp false).q
         = fun i => wrap1 piK (qe i - qs i) + qs i) ∧
    (∀ (F : Vec7 K → FkinOut K) (wpinv : WPinv K) (sqrtK : K → K)
       (s : EngState K) (t0 te dt : K) (bp bv gp : Vec3 K)
       (qs qds qe qde : Vec7 K),
       s.t_start = some t0 → s.t_end = some te → t0 < te →
       s.q_start = some qs → s.qd_start = some qds →
       s.q_end = some qe → s.qd_end = some qde →
       (evaluateT F wpinv sqrtK s te dt bp bv gp false).q = qe) ∧
    (∀ d : ℝ, -Real.pi ≤ d →
       (-Real.pi ≤ wrap1 Real.pi d ∧ wrap1 Real.pi d < Real.pi) ∧
       ∃ k : ℤ, wrap1 Real.pi d = d - 2 * Real.pi * k) := by
  refine ⟨?_, ?_, ?_⟩
  · intro F pinvFn sqrtK piK s t0 te dt bp bv gp qs qds qe qde h1 h2 h3 h4 h5 h6 h7
    exact evaluateC_q_at_tend F pinvFn sqrtK piK s t0 te dt bp bv gp
      qs qds qe qde h1 h2 h3 h4 h5 h6 h7
  · intro F wpinv sqrtK s t0 te dt bp bv gp qs qds qe qde h1 h2 h3 h4 h5 h6 h7
    exact evaluateT_q_at_tend F wpinv sqrtK s t0 te dt bp bv gp
      qs qds qe qde h1 h2 h3 h4 h5 h6 h7
  · intro d hd
    exact wrap1_of_ge_neg_pi Real.pi d Real.pi_pos hd

/-- Witness for C2 amended: concrete unit-duration segments for both engines
(the Controller one wrapping a delta, the Trajectory one passing it through),
and the Controller wrap at the spec's example delta `3.0`. -/
theorem C2_wrap_shortest_path_witness :
    ((0 : ℚ) < 1 ∧
     (evaluateC (fkinConst (K := ℚ) 0 idM3) pinvZ id 3 segWrap
         1 (1 / 100) 0 0 0 false).q
       = fun i => wrap1 (3 : ℚ) ((fun _ : Fin 7 => (-4 : ℚ)) i - zero7 i)
           + zero7 i) ∧
    ((evaluateT (fkinConst (K := ℚ) 0 idM3) wpinvZ id segLit
         1 (1 / 100) 0 0 0 false).q = fun _ : Fin 7 => (7 : ℚ)) ∧
    (-Real.pi ≤ (3 : ℝ) ∧
     (-Real.pi ≤ wrap1 Real.pi 3 ∧ wrap1 Real.pi 3 < Real.pi) ∧
     ∃ k : ℤ, wrap1 Real.pi 3 = 3 - 2 * Real.pi * k) := by
  have hd : -Real.pi ≤ (3 : ℝ) := by
    have := Real.pi_pos
    linarith
  refine ⟨⟨by norm_num, ?_⟩, ?_, hd, ?_⟩
  · exact (C2_wrap_shortest_path (K := ℚ)).1 (fkinConst 0 idM3) pinvZ id 3
      segWrap 0 1 (1 / 100) 0 0 0 zero7 zero7 (fun _ => -4) zero7
      rfl rfl (by norm_num) rfl rfl rfl rfl
  · exact (C2_wrap_shortest_path (K := ℚ)).2.1 (fkinConst 0 idM3) wpinvZ id
      segLit 0 1 (1 / 100) 0 0 0 zero7 zero7 (fun _ => 7) zero7
      rfl rfl (by norm_num) rfl rfl rfl rfl
  · exact (C2_wrap_shortest_path (K := ℚ)).2.2 3 hd

/-- If `fkin` is constant and its constant task error fails the `1e-3`
tolerance test, the Trajectory Newton loop never converges (the error does
not depend on `q`). -/
theorem ikinLoopT_const_fail (F : Vec7 K → FkinOut K) (out : FkinOut K)
    (hF : ∀ q, F q = out) (wpinv : WPinv K) (sqrtK : K → K)
    (pg : Vec3 K) (Rg : Mat3 K)
    (hbig : ¬ sqrtK (sqnorm6 (errT out pg Rg)) < 1 / 1000) :
    ∀ (n : Nat) (q : Vec7 K) (tr : List K),
      (ikinLoopT F wpinv sqrtK pg Rg n q tr).1 = none := by
  intro n
  induction n with
  | zero =>
    intro q tr
    rfl
  | succ n ih =>
    intro q tr
    have hb : ¬ sqrtK (sqnorm6 (errT (F q) pg Rg)) < 1 / 1000 := by
      rw [hF q]
      exact hbig
    simp only [ikinLoopT, if_neg hb]
    exact ih _ _

/-- `Trajectory.ikin_q_qd` under a constant, far-off `fkin`: the joint
result is `None` and the returned error-magnitude trace holds exactly 500
entries. -/
theorem ikin_q_qd_const_fail (F : Vec7 K → FkinOut K) (out : FkinOut K)
    (hF : ∀ q, F q = out) (wpinv : WPinv K) (sqrtK : K → K)
    (qinit : Vec7 K) (pg pd : Vec3 K) (Rg : Mat3 K) (w : Vec3 K)
    (hbig : ¬ sqrtK (sqnorm6 (errT out pg Rg)) < 1 / 1000) :
    (ikin_q_qd F wpinv sqrtK qinit pg pd Rg w).1 = none ∧
    ((ikin_q_qd F wpinv sqrtK qinit pg pd Rg w).2).map List.length
      = some 500 := by
  have hnone : (ikinLoopT F wpinv sqrtK pg Rg 500 qinit []).1 = none :=
    ikinLoopT_const_fail F out hF wpinv sqrtK pg Rg hbig 500 qinit []
  have hlen := (ikinLoopT_none_trace F wpinv sqrtK pg Rg 500 qinit [] hnone).1
  rcases hr : ikinLoopT F wpinv sqrtK pg Rg 500 qinit [] with ⟨oq, tr⟩
  rw [hr] at hnone hlen
  cases oq with
  | some q => exact absurd hnone (by simp)
  | none =>
    constructor
    · simp only [ikin_q_qd, hr]
    · simp only [ikin_q_qd, hr, Option.map_some']
      simp at hlen
      rw [hlen]

/-- C3 counterexample to the claimed trace reporting of `Controller.ikin`:
sent to the same unreachable goal (an external chain stuck at `(5,5,5)` while
the goal is the origin), `Trajectory.ikin_q_qd` fails with the 500-entry
per-iteration error-magnitude trace the claim describes, but
`Controller.ikin`'s entire failure result is the bare `None` — no
error-norm sequence anywhere in it. -/
theorem C3_no_trace_counterexample :
    ikinC (fkinConst (K := ℚ) ⟨5, 5, 5⟩ idM3) pinvZ id 3 zero7 0 0 idM3 0
      = none ∧
    (ikin_q_qd (fkinConst (K := ℚ) ⟨5, 5, 5⟩ idM3) wpinvZ id
        zero7 0 0 idM3 0).1 = none ∧
    ((ikin_q_qd (fkinConst (K := ℚ) ⟨5, 5, 5⟩ idM3) wpinvZ id
        zero7 0 0 idM3 0).2).map List.length = some 500 := by
  have hF : ∀ q, fkinConst (K := ℚ) ⟨5, 5, 5⟩ idM3 q
      = ⟨⟨5, 5, 5⟩, idM3, fun _ => zero7, fun _ => zero7⟩ := fun _ => rfl
  have heC : errC (K := ℚ)
      ⟨⟨5, 5, 5⟩, idM3, fun _ => zero7, fun _ => zero7⟩ 0 idM3 1 = -5 := by
    simp [errC, concat6, v3sub_def, v3zero_def]
  have hbigC : ¬ id (sqnorm6 (errC (K := ℚ)
      ⟨⟨5, 5, 5⟩, idM3, fun _ => zero7, fun _ => zero7⟩ 0 idM3)) < 1 / 10 ^ 7 := by
    intro hlt
    have hone := sq_le_sqnorm6 (errC (K := ℚ)
      ⟨⟨5, 5, 5⟩, idM3, fun _ => zero7, fun _ => zero7⟩ 0 idM3) 1
    rw [heC] at hone
    simp only [id] at hlt
    norm_num at hone
    linarith
  have heT : errT (K := ℚ)
      ⟨⟨5, 5, 5⟩, idM3, fun _ => zero7, fun _ => zero7⟩ 0 idM3 1 = -5 := by
    simp [errT, concat6, v3sub_def, v3zero_def]
  have hbigT : ¬ id (sqnorm6 (errT (K := ℚ)
      ⟨⟨5, 5, 5⟩, idM3, fun _ => zero7, fun _ => zero7⟩ 0 idM3)) < 1 / 1000 := by
    intro hlt
    have hone := sq_le_sqnorm6 (errT (K := ℚ)
      ⟨⟨5, 5, 5⟩, idM3, fun _ => zero7, fun _ => zero7⟩ 0 idM3) 1
    rw [heT] at hone
    simp only [id] at hlt
    norm_num at hone
    linarith
  have h1 := ikinC_const_fail (fkinConst (K := ℚ) ⟨5, 5, 5⟩ idM3)
    ⟨⟨5, 5, 5⟩, idM3, fun _ => zero7, fun _ => zero7⟩ hF pinvZ id 3 zero7
    0 0 idM3 0 hbigC
  have h2 := ikin_q_qd_const_fail (fkinConst (K := ℚ) ⟨5, 5, 5⟩ idM3)
    ⟨⟨5, 5, 5⟩, idM3, fun _ => zero7, fun _ => zero7⟩ hF wpinvZ id zero7
    0 0 idM3 0 hbigT
  exact ⟨h1, h2.1, h2.2⟩
